import Mathlib

/-!
# Call-stack cycle profiler (`Core/Profiler.cpp`, `Core/Profiler.h`)

A shallow embedding of `Profiler` and of the record type `ProfiledFunction`.

* `uint64_t` values are natural numbers; every `+=`, `+`, `-` and `++` of the source
  is followed by an explicit reduction modulo `2 ^ 64`.
* `int32_t` values are integers; the conversions `uint32_t -> int32_t` and
  `size_t -> int32_t` are written out (`toInt32`), and so is the one subtraction made in
  `int32_t` (`subInt32`, which has no result where the difference overflows).
* `_console->GetMasterClock()` is an input: every operation that reads the clock takes the
  value read as the argument `masterClock`.
* `unordered_map<int32_t, ProfiledFunction>` is an association list; `deque`s are lists whose
  last element is `back()`.
-/

namespace Profiler

/-- The number of values of a `uint64_t`. -/
abbrev UINT64_SIZE : Nat := 18446744073709551616

/-- The constant `UINT64_MAX`. -/
abbrev UINT64_MAX : Nat := 18446744073709551615

/-- Result of an unsigned 64-bit operation whose mathematical value is `n`. -/
def wrap64 (n : Nat) : Nat := n % UINT64_SIZE

/-- The difference `a - b` of two `uint64_t`. -/
def sub64 (a b : Nat) : Nat := (a % UINT64_SIZE + UINT64_SIZE - b % UINT64_SIZE) % UINT64_SIZE

/-- Conversion of an unsigned value to `int32_t` (two's complement, as every supported
compiler does it). -/
def toInt32 (n : Nat) : Int :=
  if n % 4294967296 < 2147483648 then (n % 4294967296 : Nat)
  else (n % 4294967296 : Nat) - 4294967296

/-- The two's complement `int32_t` with the same low 32 bits as the integer `x`. -/
def wrapInt32 (x : Int) : Int := toInt32 (x % 4294967296).toNat

/-- The difference `a - b` of two `int32_t`, where it is an `int32_t`; `none` where it is
not (signed overflow, undefined in C++). -/
def subInt32 (a b : Int) : Option Int :=
  if -2147483648 ≤ a - b ∧ a - b ≤ 2147483647 then some (a - b) else none

/-- Modelled from the spec: the enum `StackFrameFlags` of `DebugTypes.h`, which is not among
the sources; the spec names its values as "normal call vs. interrupt/NMI entry vs. none".
The profiler only ever compares a flag with `None`. -/
inductive StackFrameFlags where
  | None
  | Nmi
  | Irq
  deriving DecidableEq, Repr

/-- Modelled from the spec: the struct `AddressInfo` of `DebugTypes.h`, which is not among
the sources; the spec describes a function identity as an (address, memory-region type)
pair. `Profiler.cpp` reads the member `Address` (an `int32_t`: it is compared with 0 and
or-ed into the 32-bit key) and the member `Type` (a `SnesMemoryType`, cast to `uint8_t`),
kept here as `MemoryType`, the numeric value of the enumerator. -/
structure AddressInfo where
  Address : Int
  MemoryType : Nat
  deriving DecidableEq, Repr

/-- The struct `ProfiledFunction` of `Profiler.h`. -/
structure ProfiledFunction where
  ExclusiveCycles : Nat
  InclusiveCycles : Nat
  CallCount : Nat
  MinCycles : Nat
  MaxCycles : Nat
  Address : AddressInfo
  deriving DecidableEq, Repr

/-- The value `ProfiledFunction()`: the default member initialisers of `Profiler.h`, the
member `Address` zero-initialised. -/
def ProfiledFunction.init : ProfiledFunction :=
  { ExclusiveCycles := 0, InclusiveCycles := 0, CallCount := 0,
    MinCycles := UINT64_MAX, MaxCycles := 0, Address := { Address := 0, MemoryType := 0 } }

/-- The type of `_functions`. -/
abbrev FunctionMap := List (Int × ProfiledFunction)

/-- Lookup `_functions.find(key)`; `none` stands for `end()`. -/
def FunctionMap.find : FunctionMap → Int → Option ProfiledFunction
  | [], _ => none
  | (k, r) :: rest, key => if k = key then some r else FunctionMap.find rest key

/-- The access `_functions[key]` followed by a write `f` through the reference obtained:
`operator[]` inserts `ProfiledFunction()` first when the key is absent. -/
def FunctionMap.update : FunctionMap → Int → (ProfiledFunction → ProfiledFunction) → FunctionMap
  | [], key, f => [(key, f ProfiledFunction.init)]
  | (k, r) :: rest, key, f =>
    if k = key then (k, f r) :: rest else (k, r) :: FunctionMap.update rest key f

/-- The data members of `class Profiler` (the two collaborator pointers left out). -/
structure State where
  functions : FunctionMap
  functionStack : List Int
  stackFlags : List StackFrameFlags
  cycleCountStack : List Nat
  currentCycleCount : Nat
  prevMasterClock : Nat
  currentFunction : Int
  deriving DecidableEq, Repr

/-- The constant `ResetFunctionIndex`. -/
def ResetFunctionIndex : Int := -1

/-- The key of `StackFunction`: `addr.Address | ((uint8_t)addr.Type << 24)` as a `uint32_t`,
converted to the `int32_t` key type of the map (the bits of the tag land in bits 24..31, so
a tag of 128 or more gives a negative key). Only used for `addr.Address >= 0`. -/
def functionKey (addr : AddressInfo) : Int :=
  toInt32 (addr.Address.toNat ||| ((addr.MemoryType % 256) <<< 24))

/-- `func.ExclusiveCycles += clockGap; func.InclusiveCycles += clockGap;` -/
def addBoth (clockGap : Nat) (func : ProfiledFunction) : ProfiledFunction :=
  { func with ExclusiveCycles := wrap64 (func.ExclusiveCycles + clockGap),
              InclusiveCycles := wrap64 (func.InclusiveCycles + clockGap) }

/-- `.InclusiveCycles += clockGap;` -/
def addInclusive (clockGap : Nat) (func : ProfiledFunction) : ProfiledFunction :=
  { func with InclusiveCycles := wrap64 (func.InclusiveCycles + clockGap) }

/-- The loop of `UpdateCycles`. The first numeric argument is `i + 1` for the loop index `i`
(so `0` means `i < 0`, the loop is over). A read `_stackFlags[i]` past the end of the deque
(undefined in C++; it cannot happen while the three stacks have the same length) reads
`None`. -/
def UpdateCycles.loop (functionStack : List Int) (stackFlags : List StackFrameFlags)
    (clockGap : Nat) : Nat → FunctionMap → FunctionMap
  | 0, functions => functions
  | i + 1, functions =>
    let functions := functions.update (functionStack.getD i 0) (addInclusive clockGap)
    if stackFlags.getD i StackFrameFlags.None ≠ StackFrameFlags.None then functions
    else UpdateCycles.loop functionStack stackFlags clockGap i functions

/-- The index `int32_t i = len - 1` the loop of `UpdateCycles` starts at when the function
stack has `size` entries: `len` is the size converted to `int32_t`, and the subtraction is
made in `int32_t`. There is no index when `len` is `INT32_MIN` (a stack of `2 ^ 31`
entries, modulo `2 ^ 32`): the subtraction overflows, which C++ leaves undefined. -/
def UpdateCycles.start (size : Nat) : Option Int :=
  let len : Int := toInt32 size
  subInt32 len 1

/-- The number of iterations the loop can make, one per index from the start index down to
0: `i + 1` for a start index `i >= 0`, zero for a negative one. Where `len - 1` overflows
the count is the one of the two's complement result `INT32_MAX`, what a build with wrapping
`int32_t` arithmetic computes. -/
def UpdateCycles.iterations (size : Nat) : Nat :=
  match UpdateCycles.start size with
  | some i => (i + 1).toNat
  | none => (wrapInt32 (toInt32 size - 1) + 1).toNat

/-- `Profiler::UpdateCycles`, reading `masterClock` from the console. The loop starts at
the index `len - 1` (`UpdateCycles.start`) and does not run when that is negative. -/
def UpdateCycles (s : State) (masterClock : Nat) : State :=
  let clockGap := sub64 masterClock s.prevMasterClock
  let functions := s.functions.update s.currentFunction (addBoth clockGap)
  let functions :=
    UpdateCycles.loop s.functionStack s.stackFlags clockGap
      (UpdateCycles.iterations s.functionStack.length) functions
  { s with functions := functions
           currentCycleCount := wrap64 (s.currentCycleCount + clockGap)
           prevMasterClock := masterClock }

/-- The first statement of `StackFunction`: a record for the key is created when
`_functions.find(key) == _functions.end()`. -/
def StackFunction.createRecord (s : State) (addr : AddressInfo) : State :=
  let key := functionKey addr
  if (s.functions.find key).isNone then
    let functions := s.functions.update key (fun _ => ProfiledFunction.init)
    let functions := functions.update key (fun func => { func with Address := addr })
    { s with functions := functions }
  else s

/-- `Profiler::StackFunction`. -/
def StackFunction (s : State) (addr : AddressInfo) (stackFlag : StackFrameFlags)
    (masterClock : Nat) : State :=
  if 0 ≤ addr.Address then
    let key := functionKey addr
    let s := StackFunction.createRecord s addr
    let s := UpdateCycles s masterClock
    { s with stackFlags := s.stackFlags ++ [stackFlag]
             cycleCountStack := s.cycleCountStack ++ [s.currentCycleCount]
             functionStack := s.functionStack ++ [s.currentFunction]
             functions := s.functions.update key
               (fun func => { func with CallCount := wrap64 (func.CallCount + 1) })
             currentFunction := key
             currentCycleCount := 0 }
  else s

/-- `Profiler::UnstackFunction`. `_cycleCountStack.back()` on an empty deque (undefined in
C++; it cannot happen while the three stacks have the same length) reads `0`. -/
def UnstackFunction (s : State) (masterClock : Nat) : State :=
  match s.functionStack.getLast? with
  | none => s
  | some _ =>
    let s := UpdateCycles s masterClock
    let functions := s.functions.update s.currentFunction
      (fun func => { func with MinCycles := min func.MinCycles s.currentCycleCount
                               MaxCycles := max func.MaxCycles s.currentCycleCount })
    { s with functions := functions
             currentFunction := s.functionStack.getLastD 0
             functionStack := s.functionStack.dropLast
             stackFlags := s.stackFlags.dropLast
             currentCycleCount := wrap64 (s.cycleCountStack.getLastD 0 + s.currentCycleCount)
             cycleCountStack := s.cycleCountStack.dropLast }

/-- `Profiler::InternalReset`. `registerType` is the value of the enumerator
`SnesMemoryType::Register`, declared in `DebugTypes.h`. -/
def InternalReset (registerType : Nat) (s : State) (masterClock : Nat) : State :=
  let functions : FunctionMap := []
  let functions := functions.update ResetFunctionIndex (fun _ => ProfiledFunction.init)
  let functions := functions.update ResetFunctionIndex
    (fun func => { func with
      Address := { Address := ResetFunctionIndex, MemoryType := registerType } })
  { s with prevMasterClock := masterClock
           currentCycleCount := 0
           currentFunction := ResetFunctionIndex
           functionStack := []
           stackFlags := []
           cycleCountStack := []
           functions := functions }

/-- `Profiler::Reset`. -/
def Reset (registerType : Nat) (s : State) (masterClock : Nat) : State :=
  InternalReset registerType s masterClock

/-- The copy loop of `GetProfilerData` over the records not yet visited: `profilerData` is
the list of records written so far (`profilerData[functionCount] = func.second` appends at
index `functionCount`). -/
def GetProfilerData.loop : FunctionMap → List ProfiledFunction → Nat → List ProfiledFunction × Nat
  | [], profilerData, functionCount => (profilerData, functionCount)
  | func :: rest, profilerData, functionCount =>
    let profilerData := profilerData ++ [func.2]
    let functionCount := functionCount + 1
    if functionCount ≥ 100000 then (profilerData, functionCount)
    else GetProfilerData.loop rest profilerData functionCount

/-- `Profiler::GetProfilerData`: the new state, the records written to `profilerData` and the
value left in `functionCount`. The map is visited in the order of the association list. -/
def GetProfilerData (s : State) (masterClock : Nat) : State × List ProfiledFunction × Nat :=
  let s := UpdateCycles s masterClock
  (s, GetProfilerData.loop s.functions [] 0)

/-- The calls the debugger and the reporting side make, each with the value the master clock
has at the call. -/
inductive Event where
  | StackFunction (addr : AddressInfo) (stackFlag : StackFrameFlags) (masterClock : Nat)
  | UnstackFunction (masterClock : Nat)
  | GetProfilerData (masterClock : Nat)
  | Reset (masterClock : Nat)
  deriving DecidableEq, Repr

/-- The master clock at an event. -/
def Event.masterClock : Event → Nat
  | .StackFunction _ _ c => c
  | .UnstackFunction c => c
  | .GetProfilerData c => c
  | .Reset c => c

/-- The profiler after one call. -/
def step (registerType : Nat) (s : State) : Event → State
  | .StackFunction addr stackFlag c => StackFunction s addr stackFlag c
  | .UnstackFunction c => UnstackFunction s c
  | .GetProfilerData c => (GetProfilerData s c).1
  | .Reset c => Reset registerType s c

/-- `Profiler::Profiler`: the containers start empty and `InternalReset` overwrites every
scalar member, so the values the scalars start with do not matter (taken as `0`). -/
def construct (registerType : Nat) (masterClock : Nat) : State :=
  InternalReset registerType
    { functions := [], functionStack := [], stackFlags := [], cycleCountStack := [],
      currentCycleCount := 0, prevMasterClock := 0, currentFunction := 0 } masterClock

/-- The record `_functions[key]` would refer to: the stored one, or `ProfiledFunction()`
when the key is absent. -/
def FunctionMap.get (functions : FunctionMap) (key : Int) : ProfiledFunction :=
  (functions.find key).getD ProfiledFunction.init

/-- The profiler after a sequence of calls. -/
def run (registerType : Nat) (s : State) (events : List Event) : State :=
  events.foldl (step registerType) s

/-! ## Notions the statements are written with -/

/-- The keys the loop of `UpdateCycles` writes to, in the order of the writes (same
numbering of the iterations as `UpdateCycles.loop`). -/
def UpdateCycles.touched (functionStack : List Int) (stackFlags : List StackFrameFlags) :
    Nat → List Int
  | 0 => []
  | i + 1 =>
    functionStack.getD i 0 ::
      (if stackFlags.getD i StackFrameFlags.None ≠ StackFrameFlags.None then []
       else UpdateCycles.touched functionStack stackFlags i)

/-- The event is a call of `Reset`. -/
def Event.isReset : Event → Bool
  | .Reset _ => true
  | _ => false

/-- No call of `Reset` in the sequence. -/
def noReset (events : List Event) : Bool := events.all (fun e => !e.isReset)

/-- The master clock never decreases from `start` on along the events, and every reading is
a `uint64_t`. -/
def clockOrdered : Nat → List Event → Bool
  | start, [] => decide (start < UINT64_SIZE)
  | start, e :: rest => decide (start ≤ e.masterClock) && clockOrdered e.masterClock rest

/-- Sum of `ExclusiveCycles` over all records of the table. -/
def sumExclusive (functions : FunctionMap) : Nat :=
  (functions.map (fun p => p.2.ExclusiveCycles)).sum

/-- The event is a `StackFunction` call with a non-negative address resolving to `key`. -/
def Event.stacks (key : Int) : Event → Bool
  | .StackFunction addr _ _ => decide (0 ≤ addr.Address) && decide (functionKey addr = key)
  | _ => false

/-- Number of `StackFunction` calls of the sequence made with a non-negative address
resolving to `key`. -/
def countCalls (key : Int) (events : List Event) : Nat :=
  (events.filter (Event.stacks key)).length

/-- The record of `k` exists and its `InclusiveCycles` is a 64-bit value. -/
def Settled (t : FunctionMap) (k : Int) : Prop :=
  ∃ r, t.find k = some r ∧ r.InclusiveCycles < UINT64_SIZE

/-- The part of a record no flush writes to. -/
def ProfiledFunction.sameCounts (r r' : ProfiledFunction) : Prop :=
  r'.CallCount = r.CallCount ∧ r'.MinCycles = r.MinCycles ∧ r'.MaxCycles = r.MaxCycles

/-- A short run: a function at address 16 is entered, interrupted by one at address 32,
entered again from there, and that second invocation returns. -/
def sampleCalls : List Event :=
  [Event.StackFunction ⟨16, 0⟩ StackFrameFlags.None 11,
   Event.StackFunction ⟨32, 0⟩ StackFrameFlags.Irq 12,
   Event.StackFunction ⟨16, 0⟩ StackFrameFlags.None 13,
   Event.UnstackFunction 14, Event.GetProfilerData 15]

/-- Exclusive cycles add up to the clock elapsed between the reset at `start` and the last
flush. -/
def Conserved (start : Nat) (s : State) : Prop :=
  start ≤ s.prevMasterClock ∧ s.prevMasterClock < UINT64_SIZE ∧
    sumExclusive s.functions = s.prevMasterClock - start

/-- No `InclusiveCycles += clockGap` of the loop of `UpdateCycles` wraps around `2 ^ 64`
(same arguments as `UpdateCycles.loop`). -/
def UpdateCycles.loopFits (functionStack : List Int) (stackFlags : List StackFrameFlags)
    (clockGap : Nat) : Nat → FunctionMap → Bool
  | 0, _ => true
  | i + 1, functions =>
    decide ((functions.get (functionStack.getD i 0)).InclusiveCycles + clockGap < UINT64_SIZE) &&
      (if stackFlags.getD i StackFrameFlags.None ≠ StackFrameFlags.None then true
       else UpdateCycles.loopFits functionStack stackFlags clockGap i
         (functions.update (functionStack.getD i 0) (addInclusive clockGap)))

/-- No `InclusiveCycles += clockGap` of the flush of state `s` at `masterClock` wraps around
`2 ^ 64`. -/
def UpdateCycles.fits (s : State) (masterClock : Nat) : Bool :=
  let clockGap := sub64 masterClock s.prevMasterClock
  decide ((s.functions.get s.currentFunction).InclusiveCycles + clockGap < UINT64_SIZE) &&
    UpdateCycles.loopFits s.functionStack s.stackFlags clockGap
      (UpdateCycles.iterations s.functionStack.length)
      (s.functions.update s.currentFunction (addBoth clockGap))

/-- The flush the call makes, if it makes one, wraps no `InclusiveCycles`. -/
def stepFits (s : State) : Event → Bool
  | .StackFunction addr _ c =>
    if 0 ≤ addr.Address then UpdateCycles.fits (StackFunction.createRecord s addr) c else true
  | .UnstackFunction c =>
    match s.functionStack.getLast? with
    | none => true
    | some _ => UpdateCycles.fits s c
  | .GetProfilerData c => UpdateCycles.fits s c
  | .Reset _ => true

/-- No flush of the run wraps an `InclusiveCycles` counter. -/
def runFits (registerType : Nat) : State → List Event → Bool
  | _, [] => true
  | s, e :: rest => stepFits s e && runFits registerType (step registerType s e) rest

/-- Every record of the table has at least as many inclusive as exclusive cycles. -/
def InclusiveCovers (functions : FunctionMap) : Prop :=
  ∀ key : Int, (functions.get key).ExclusiveCycles ≤ (functions.get key).InclusiveCycles

/-- What the flush of state `s` at `masterClock` makes of an `InclusiveCycles` value `x`
stored under `key`: one addition when `key` is the current function, one more for every
write of the loop to `key`. -/
def flushedInclusive (s : State) (masterClock : Nat) (key : Int) (x : Nat) : Nat :=
  (UpdateCycles.touched s.functionStack s.stackFlags
      (UpdateCycles.iterations s.functionStack.length)).foldl
    (fun x k => if k = key then wrap64 (x + sub64 masterClock s.prevMasterClock) else x)
    (if s.currentFunction = key then wrap64 (x + sub64 masterClock s.prevMasterClock) else x)

/-- The `InclusiveCycles` of the record stored under `key`, if there is one. -/
def inclusiveCycles (s : State) (key : Int) : Option Nat :=
  (s.functions.find key).map (fun func => func.InclusiveCycles)

/-- The calls of the interrupt-firewall scenario after the `Reset`: `a` is called, calls
`b`, which is interrupted by the handler `i` (pushed with `flag`), which calls `c`; then
`c`, `i` and `b` return. `t1` .. `t7` are the master-clock readings of the seven calls. -/
def firewallCalls (a b i c : AddressInfo) (flag : StackFrameFlags)
    (t1 t2 t3 t4 t5 t6 t7 : Nat) : List Event :=
  [Event.StackFunction a StackFrameFlags.None t1,
   Event.StackFunction b StackFrameFlags.None t2,
   Event.StackFunction i flag t3,
   Event.StackFunction c StackFrameFlags.None t4,
   Event.UnstackFunction t5,
   Event.UnstackFunction t6,
   Event.UnstackFunction t7]

/-- The profiler after `Reset` at clock `t0` and the first `n` calls of the scenario. -/
def firewallState (registerType : Nat) (s : State) (a b i c : AddressInfo)
    (flag : StackFrameFlags) (t0 t1 t2 t3 t4 t5 t6 t7 : Nat) (n : Nat) : State :=
  run registerType (Reset registerType s t0)
    ((firewallCalls a b i c flag t1 t2 t3 t4 t5 t6 t7).take n)

/-- The calls made while an interrupt handler runs that was entered when `interrupted` was
the current function: the handler and its callees call further functions by plain calls
(flag `None`) whose key is not `interrupted`, callees return, snapshots are taken; the
handler itself does not return. `depth` counts the callee frames above the handler's. -/
def handlerRuns (interrupted : Int) : Nat → List Event → Bool
  | _, [] => true
  | depth, .StackFunction addr flag _ :: rest =>
    if 0 ≤ addr.Address then
      decide (flag = StackFrameFlags.None) && decide (functionKey addr ≠ interrupted) &&
        handlerRuns interrupted (depth + 1) rest
    else handlerRuns interrupted depth rest
  | depth, .UnstackFunction _ :: rest =>
    decide (0 < depth) && handlerRuns interrupted (depth - 1) rest
  | depth, .GetProfilerData _ :: rest => handlerRuns interrupted depth rest
  | _, .Reset _ :: _ => false

/-- The shadow stack of `t` is that of `s` with the frame of the interrupt on top (the
current function of `s`, pushed with `flag`) and above it `depth` frames pushed with the
flag `None` for functions other than the interrupted one, which is not current either. -/
def AboveInterrupt (s : State) (flag : StackFrameFlags) (depth : Nat) (t : State) : Prop :=
  ∃ (post : List Int) (postFlags : List StackFrameFlags),
    t.functionStack = s.functionStack ++ [s.currentFunction] ++ post ∧
    t.stackFlags = s.stackFlags ++ [flag] ++ postFlags ∧
    post.length = depth ∧ postFlags.length = depth ∧
    (∀ f ∈ postFlags, f = StackFrameFlags.None) ∧
    s.currentFunction ∉ post ∧ t.currentFunction ≠ s.currentFunction

/-- A state in which the routine at address 16 is the current function: the profiler is
constructed at clock 0 and the routine is called at clock 1. -/
def sampleInterrupted : State :=
  StackFunction (construct 0 0) ⟨16, 0⟩ StackFrameFlags.None 1

/-- The call history of a run, as the min/max property speaks of it: the frames pushed and
not yet popped, innermost first, each with the key of its function and the master clock at
the `StackFunction` that pushed it; and the invocations completed so far, each with its key
and its duration, in the order of completion. -/
structure History where
  frames : List (Int × Nat)
  completed : List (Int × Nat)
  deriving DecidableEq, Repr

/-- The history after one more call. A `StackFunction` with a non-negative address pushes a
frame; an `UnstackFunction` with a frame to pop completes the innermost invocation, whose
duration is the master clock at the return minus the master clock at its push. -/
def History.step (h : History) : Event → History
  | .StackFunction addr _ c =>
    if 0 ≤ addr.Address then { h with frames := (functionKey addr, c) :: h.frames } else h
  | .UnstackFunction c =>
    match h.frames with
    | [] => h
    | (key, pushed) :: rest =>
      { frames := rest, completed := h.completed ++ [(key, c - pushed)] }
  | .GetProfilerData _ => h
  | .Reset _ => { frames := [], completed := [] }

/-- The history of a sequence of calls made after a reset. -/
def history (events : List Event) : History :=
  events.foldl History.step { frames := [], completed := [] }

/-- The durations recorded for `key` in a list of completed invocations. -/
def durationsOf (key : Int) (completed : List (Int × Nat)) : List Nat :=
  (completed.filter (fun p => decide (p.1 = key))).map (fun p => p.2)

/-- The durations `d_1 .. d_n` of the invocations of `key` completed by the sequence. -/
def durations (key : Int) (events : List Event) : List Nat :=
  durationsOf key (history events).completed

/-- The function of the innermost open frame; the sentinel when no frame is open. -/
def History.current : List (Int × Nat) → Int
  | [] => ResetFunctionIndex
  | (key, _) :: _ => key

/-- The master clock at which the innermost open frame began (`start`, the clock of the
reset, when no frame is open). -/
def History.began (start : Nat) : List (Int × Nat) → Nat
  | [] => start
  | (_, pushed) :: _ => pushed

/-- The `_functionStack` that matches the open frames. -/
def History.callers : List (Int × Nat) → List Int
  | [] => []
  | _ :: rest => History.callers rest ++ [History.current rest]

/-- The `_cycleCountStack` that matches the open frames: what each caller had run when it
made its call. -/
def History.counts (start : Nat) : List (Int × Nat) → List Nat
  | [] => []
  | (_, pushed) :: rest => History.counts start rest ++ [pushed - History.began start rest]

/-- Frames were pushed at non-decreasing clocks. -/
def History.timed (start : Nat) : List (Int × Nat) → Prop
  | [] => True
  | (_, pushed) :: rest => History.began start rest ≤ pushed ∧ History.timed start rest

/-- The profiler state `s` matches the history `h` of a run started at clock `start`. -/
structure Tracks (start : Nat) (h : History) (s : State) : Prop where
  functionStack : s.functionStack = History.callers h.frames
  cycleCountStack : s.cycleCountStack = History.counts start h.frames
  currentFunction : s.currentFunction = History.current h.frames
  timed : History.timed start h.frames
  began_le : History.began start h.frames ≤ s.prevMasterClock
  prev_lt : s.prevMasterClock < UINT64_SIZE
  currentCycleCount : s.currentCycleCount = s.prevMasterClock - History.began start h.frames
  minCycles : ∀ key, (s.functions.get key).MinCycles
    = (durationsOf key h.completed).foldl min UINT64_MAX
  maxCycles : ∀ key, (s.functions.get key).MaxCycles
    = (durationsOf key h.completed).foldl max 0
  recorded : ∀ key, durationsOf key h.completed ≠ [] → (s.functions.find key).isSome = true
  bounded : ∀ p ∈ h.completed, p.2 ≤ UINT64_MAX

/-- A run in which the function at address 16 completes two invocations: it is entered at
clock 11, interrupted at 12 by the function at address 32, entered again from there at 13;
that inner invocation returns at 14 (duration 1), the handler at 17 (duration 5) and the
outer invocation at 20 (duration 9). -/
def sampleReturns : List Event :=
  [Event.StackFunction ⟨16, 0⟩ StackFrameFlags.None 11,
   Event.StackFunction ⟨32, 0⟩ StackFrameFlags.Irq 12,
   Event.StackFunction ⟨16, 0⟩ StackFrameFlags.None 13,
   Event.UnstackFunction 14, Event.UnstackFunction 17, Event.UnstackFunction 20,
   Event.GetProfilerData 21]

/-- The keys of the table, in the order of the records. -/
def FunctionMap.keys (functions : FunctionMap) : List Int :=
  functions.map (fun p => p.1)

/-- A state with nothing on the stacks, the function with key 16 current with a running
count of 4 cycles, the clock last observed at 10 and an empty table. -/
def sampleRunning : State :=
  { functions := [], functionStack := [], stackFlags := [], cycleCountStack := [],
    currentCycleCount := 4, prevMasterClock := 10, currentFunction := 16 }

/-- The index of the topmost entry among the first `n` entries of the flag stack whose flag
is not `None`; `0` if there is none. -/
def topBoundary (stackFlags : List StackFrameFlags) : Nat → Nat
  | 0 => 0
  | i + 1 =>
    if stackFlags.getD i StackFrameFlags.None ≠ StackFrameFlags.None then i
    else topBoundary stackFlags i

/-- How often a flush of state `s` adds the clock gap to the `InclusiveCycles` of `key`
according to the spec: once if `key` is the current function, and once for every entry of
the function stack equal to `key` at or above the topmost entry whose flag is not `None`. -/
def flushCount (s : State) (key : Int) : Nat :=
  (if s.currentFunction = key then 1 else 0)
    + (s.functionStack.drop (topBoundary s.stackFlags s.stackFlags.length)).count key

/-- A state whose shadow stack holds `2 ^ 31 + 1` frames of the function with key 7, all
pushed with the flag `None`, while the function with key 3 is current; both have a
record. -/
def deepState : State :=
  { functions := [(3, ProfiledFunction.init), (7, ProfiledFunction.init)],
    functionStack := List.replicate 2147483649 7,
    stackFlags := List.replicate 2147483649 StackFrameFlags.None,
    cycleCountStack := List.replicate 2147483649 0,
    currentCycleCount := 0, prevMasterClock := 0, currentFunction := 3 }

/-- A table of `n` fresh records under the keys `-1, 0, 1, ..., n - 2`. -/
def tableOf (n : Nat) : FunctionMap :=
  List.map (fun i : Nat => ((i : Int) - 1, ProfiledFunction.init)) (List.range n)

/-- A state whose table holds 100001 records, with nothing on the stacks and the sentinel
as current function. -/
def fullState : State :=
  { functions := tableOf 100001, functionStack := [], stackFlags := [],
    cycleCountStack := [], currentCycleCount := 0, prevMasterClock := 0,
    currentFunction := ResetFunctionIndex }

/-- The current function and every identity on the function stack have a record. -/
def Covered (s : State) : Prop :=
  (s.functions.find s.currentFunction).isSome = true ∧
    ∀ key ∈ s.functionStack, (s.functions.find key).isSome = true

theorem FunctionMap.find_update_self (t : FunctionMap) (k : Int)
    (f : ProfiledFunction → ProfiledFunction) :
    (t.update k f).find k = some (f (t.get k)) := by
  induction t with
  | nil => simp [FunctionMap.update, FunctionMap.find, FunctionMap.get]
  | cons p rest ih =>
    obtain ⟨k', r⟩ := p
    by_cases h : k' = k
    · simp [FunctionMap.update, FunctionMap.find, FunctionMap.get, h]
    · simp [FunctionMap.update, FunctionMap.find, FunctionMap.get, h] at ih ⊢
      exact ih

theorem FunctionMap.find_update_ne (t : FunctionMap) {k k' : Int}
    (f : ProfiledFunction → ProfiledFunction) (h : k ≠ k') :
    (t.update k f).find k' = t.find k' := by
  induction t with
  | nil => simp [FunctionMap.update, FunctionMap.find, h]
  | cons p rest ih =>
    obtain ⟨k₁, r⟩ := p
    by_cases h₁ : k₁ = k
    · subst h₁
      simp [FunctionMap.update, FunctionMap.find, h]
    · by_cases h₂ : k₁ = k'
      · subst h₂
        simp [FunctionMap.update, FunctionMap.find, h₁]
      · simp [FunctionMap.update, FunctionMap.find, h₁, h₂, ih]

theorem FunctionMap.get_update (t : FunctionMap) (k k' : Int)
    (f : ProfiledFunction → ProfiledFunction) :
    (t.update k f).get k' = if k = k' then f (t.get k) else t.get k' := by
  by_cases h : k = k'
  · subst h
    simp [FunctionMap.get, FunctionMap.find_update_self]
  · simp [FunctionMap.get, FunctionMap.find_update_ne t f h, h]

theorem FunctionMap.update_eq_self (t : FunctionMap) (k : Int)
    (f : ProfiledFunction → ProfiledFunction) (r : ProfiledFunction)
    (h : t.find k = some r) (hf : f r = r) : t.update k f = t := by
  induction t with
  | nil => simp [FunctionMap.find] at h
  | cons p rest ih =>
    obtain ⟨k₁, r₁⟩ := p
    by_cases h₁ : k₁ = k
    · simp [FunctionMap.find, h₁] at h
      subst h
      simp [FunctionMap.update, h₁, hf]
    · simp [FunctionMap.find, h₁] at h
      simp [FunctionMap.update, h₁, ih h]

theorem FunctionMap.get_of_find {t : FunctionMap} {k : Int} {r : ProfiledFunction}
    (h : t.find k = some r) : t.get k = r := by
  simp [FunctionMap.get, h]

theorem FunctionMap.find_update_isSome (t : FunctionMap) (k k' : Int)
    (f : ProfiledFunction → ProfiledFunction) (h : (t.find k').isSome) :
    ((t.update k f).find k').isSome := by
  by_cases hk : k = k'
  · subst hk; simp [FunctionMap.find_update_self]
  · rw [FunctionMap.find_update_ne t f hk]; exact h

/-! ## The cycle flush -/

theorem toInt32_of_lt {n : Nat} (h : n < 2147483648) : toInt32 n = (n : Int) := by
  unfold toInt32
  rw [Nat.mod_eq_of_lt (by omega), if_pos h]

theorem UpdateCycles.start_of_lt {n : Nat} (h : n < 2147483648) :
    UpdateCycles.start n = some ((n : Int) - 1) := by
  simp only [UpdateCycles.start, subInt32, toInt32_of_lt h]
  rw [if_pos (by omega)]

theorem UpdateCycles.iterations_of_lt {n : Nat} (h : n < 2147483648) :
    UpdateCycles.iterations n = n := by
  simp only [UpdateCycles.iterations, UpdateCycles.start_of_lt h]
  omega

/-- Around the limit of `int32_t`: below `2 ^ 31` frames the loop can visit every frame; at
`2 ^ 31` frames the start index overflows and the two's complement count is `2 ^ 31`; at
`2 ^ 31 + 1` frames the start index is `INT32_MIN` and the loop does not run. -/
theorem UpdateCycles.iterations_near_limit :
    UpdateCycles.start 2147483647 = some 2147483646 ∧
    UpdateCycles.iterations 2147483647 = 2147483647 ∧
    UpdateCycles.start 2147483648 = none ∧
    UpdateCycles.iterations 2147483648 = 2147483648 ∧
    UpdateCycles.start 2147483649 = some (-2147483648) ∧
    UpdateCycles.iterations 2147483649 = 0 := by
  decide

theorem UpdateCycles.iterations_le (n : Nat) : UpdateCycles.iterations n ≤ n := by
  have hle : n % 4294967296 ≤ n := Nat.mod_le _ _
  have hlt : n % 4294967296 < 4294967296 := Nat.mod_lt _ (by decide)
  by_cases h₁ : n % 4294967296 < 2147483648
  · have h : toInt32 n = ((n % 4294967296 : Nat) : Int) := by
      unfold toInt32
      rw [if_pos h₁]
    have hs : UpdateCycles.start n = some (((n % 4294967296 : Nat) : Int) - 1) := by
      simp only [UpdateCycles.start, subInt32, h]
      rw [if_pos (by omega)]
    simp only [UpdateCycles.iterations, hs]
    omega
  · have h : toInt32 n = ((n % 4294967296 : Nat) : Int) - 4294967296 := by
      unfold toInt32
      rw [if_neg h₁]
    by_cases h₂ : n % 4294967296 = 2147483648
    · have h₃ : toInt32 n = -2147483648 := by rw [h, h₂]; rfl
      have h₄ : UpdateCycles.iterations n = 2147483648 := by
        simp only [UpdateCycles.iterations, UpdateCycles.start, subInt32, h₃]
        decide
      omega
    · have hs : UpdateCycles.start n
          = some (((n % 4294967296 : Nat) : Int) - 4294967296 - 1) := by
        simp only [UpdateCycles.start, subInt32, h]
        rw [if_pos (by omega)]
      simp only [UpdateCycles.iterations, hs]
      omega

theorem UpdateCycles.loop_eq_foldl (fs : List Int) (fl : List StackFrameFlags) (gap : Nat)
    (n : Nat) (t : FunctionMap) :
    UpdateCycles.loop fs fl gap n t
      = (UpdateCycles.touched fs fl n).foldl (fun t k => t.update k (addInclusive gap)) t := by
  induction n generalizing t with
  | zero => simp [UpdateCycles.loop, UpdateCycles.touched]
  | succ i ih =>
    by_cases h : fl.getD i StackFrameFlags.None = StackFrameFlags.None
    · simp only [UpdateCycles.loop, UpdateCycles.touched, ne_eq, h, not_true_eq_false,
        if_false, List.foldl_cons, ih]
    · simp only [UpdateCycles.loop, UpdateCycles.touched, ne_eq, h, not_false_eq_true,
        if_true, List.foldl_cons, List.foldl_nil]

/-- A general principle: what every write of the loop preserves, the loop preserves. -/
theorem FunctionMap.foldl_update_preserves (P : FunctionMap → Prop)
    (f : ProfiledFunction → ProfiledFunction) (keys : List Int)
    (h : ∀ t k, k ∈ keys → P t → P (t.update k f)) (t : FunctionMap) (ht : P t) :
    P (keys.foldl (fun t k => t.update k f) t) := by
  induction keys generalizing t with
  | nil => simpa using ht
  | cons k rest ih =>
    simp only [List.foldl_cons]
    exact ih (fun t k' hk' => h t k' (List.mem_cons_of_mem _ hk')) _
      (h t k (List.mem_cons_self _ _) ht)

theorem sub64_self (c : Nat) : sub64 c c = 0 := by
  simp only [sub64, UINT64_SIZE]
  omega

theorem wrap64_wrap64_add_zero (n : Nat) : wrap64 (wrap64 n + 0) = wrap64 n := by
  unfold wrap64; simp

theorem Settled.update_addInclusive (t : FunctionMap) (k k' : Int) (gap : Nat)
    (h : Settled t k') : Settled (t.update k (addInclusive gap)) k' := by
  obtain ⟨r, hr, hlt⟩ := h
  by_cases hk : k = k'
  · subst hk
    refine ⟨_, FunctionMap.find_update_self _ _ _, ?_⟩
    simp only [addInclusive, wrap64]
    exact Nat.mod_lt _ (by decide)
  · exact ⟨r, by rw [FunctionMap.find_update_ne t _ hk]; exact hr, hlt⟩

theorem Settled.update_self (t : FunctionMap) (k : Int) (gap : Nat) :
    Settled (t.update k (addInclusive gap)) k := by
  refine ⟨_, FunctionMap.find_update_self _ _ _, ?_⟩
  simp only [addInclusive, wrap64]
  exact Nat.mod_lt _ (by decide)

theorem Settled.foldl (keys : List Int) (gap : Nat) (t : FunctionMap) (k : Int)
    (h : Settled t k) :
    Settled (keys.foldl (fun t k => t.update k (addInclusive gap)) t) k :=
  FunctionMap.foldl_update_preserves (fun t => Settled t k) _ keys
    (fun t k' _ ht => Settled.update_addInclusive t k' k gap ht) t h

theorem Settled.foldl_mem (keys : List Int) (gap : Nat) (t : FunctionMap) (k : Int)
    (h : k ∈ keys) :
    Settled (keys.foldl (fun t k => t.update k (addInclusive gap)) t) k := by
  induction keys generalizing t with
  | nil => simp at h
  | cons k₁ rest ih =>
    simp only [List.foldl_cons]
    by_cases hk : k ∈ rest
    · exact ih _ hk
    · have : k = k₁ := by simpa [hk] using h
      subst this
      exact Settled.foldl rest gap _ k (Settled.update_self t k gap)

theorem FunctionMap.update_addInclusive_zero (t : FunctionMap) (k : Int) (h : Settled t k) :
    t.update k (addInclusive 0) = t := by
  obtain ⟨r, hr, hlt⟩ := h
  apply FunctionMap.update_eq_self t k _ r hr
  simp [addInclusive, wrap64, Nat.mod_eq_of_lt hlt]

theorem FunctionMap.foldl_addInclusive_zero (keys : List Int) (t : FunctionMap)
    (h : ∀ k ∈ keys, Settled t k) :
    keys.foldl (fun t k => t.update k (addInclusive 0)) t = t := by
  induction keys with
  | nil => rfl
  | cons k rest ih =>
    simp only [List.foldl_cons]
    rw [FunctionMap.update_addInclusive_zero t k (h k (List.mem_cons_self _ _))]
    exact ih (fun k' hk' => h k' (List.mem_cons_of_mem _ hk'))

/-- A second flush at the clock of the first changes nothing. -/
theorem UpdateCycles_twice (s : State) (c : Nat) :
    UpdateCycles (UpdateCycles s c) c = UpdateCycles s c := by
  have hcur : ∃ r, (UpdateCycles s c).functions.find s.currentFunction = some r ∧
      r.ExclusiveCycles < UINT64_SIZE ∧ r.InclusiveCycles < UINT64_SIZE := by
    simp only [UpdateCycles, UpdateCycles.loop_eq_foldl]
    apply FunctionMap.foldl_update_preserves
      (fun t => ∃ r, t.find s.currentFunction = some r ∧
        r.ExclusiveCycles < UINT64_SIZE ∧ r.InclusiveCycles < UINT64_SIZE)
    · rintro t k - ⟨r, hr, he, hi⟩
      by_cases hk : k = s.currentFunction
      · subst hk
        refine ⟨_, FunctionMap.find_update_self _ _ _, ?_, ?_⟩
        · simpa [addInclusive, FunctionMap.get_of_find hr] using he
        · simp only [addInclusive, wrap64]; exact Nat.mod_lt _ (by decide)
      · exact ⟨r, by rw [FunctionMap.find_update_ne t _ hk]; exact hr, he, hi⟩
    · refine ⟨_, FunctionMap.find_update_self _ _ _, ?_, ?_⟩ <;>
        (simp only [addBoth, wrap64]; exact Nat.mod_lt _ (by decide))
  have htouched : ∀ k ∈ UpdateCycles.touched s.functionStack s.stackFlags
      (UpdateCycles.iterations s.functionStack.length), Settled (UpdateCycles s c).functions k := by
    intro k hk
    simp only [UpdateCycles, UpdateCycles.loop_eq_foldl]
    exact Settled.foldl_mem _ _ _ k hk
  obtain ⟨r, hr, he, hi⟩ := hcur
  have h1 : (UpdateCycles s c).functions.update s.currentFunction (addBoth 0)
      = (UpdateCycles s c).functions := by
    apply FunctionMap.update_eq_self _ _ _ r hr
    simp [addBoth, wrap64, Nat.mod_eq_of_lt he, Nat.mod_eq_of_lt hi]
  have e1 : (UpdateCycles s c).currentFunction = s.currentFunction := rfl
  have e2 : (UpdateCycles s c).functionStack = s.functionStack := rfl
  have e3 : (UpdateCycles s c).stackFlags = s.stackFlags := rfl
  have e4 : (UpdateCycles s c).prevMasterClock = c := rfl
  have e5 : (UpdateCycles s c).currentCycleCount
      = wrap64 (s.currentCycleCount + sub64 c s.prevMasterClock) := rfl
  have e6 : (UpdateCycles s c).cycleCountStack = s.cycleCountStack := rfl
  generalize hs1 : UpdateCycles s c = s1 at *
  simp only [UpdateCycles]
  rw [e4, sub64_self, e1, h1, e2, e3, UpdateCycles.loop_eq_foldl,
    FunctionMap.foldl_addInclusive_zero _ _ htouched]
  rw [e5, wrap64_wrap64_add_zero]
  cases s1
  simp_all


/-! ## Unmatched returns, untracked transfers, reset -/

/-- C6. `UnstackFunction` on a state whose shadow stack is empty returns the state it was
given, whatever the master clock: current function, running cycle counter, last observed
clock, the three stacks and the function table are all unchanged. -/
theorem unstackFunction_empty (s : State) (masterClock : Nat) (h : s.functionStack = []) :
    UnstackFunction s masterClock = s := by
  simp [UnstackFunction, h]

theorem unstackFunction_empty_witness :
    (construct 0 5).functionStack = [] ∧ UnstackFunction (construct 0 5) 9 = construct 0 5 :=
  ⟨by decide, unstackFunction_empty (construct 0 5) 9 (by decide)⟩

/-- C7. `StackFunction` with a negative `Address` returns the state it was given, for every
state, frame flag and master clock: no record is created, no call count incremented, nothing
pushed, no cycles flushed, the current function stays. -/
theorem stackFunction_negative (s : State) (addr : AddressInfo) (stackFlag : StackFrameFlags)
    (masterClock : Nat) (h : addr.Address < 0) :
    StackFunction s addr stackFlag masterClock = s := by
  have h' : ¬ (0 ≤ addr.Address) := by omega
  simp [StackFunction, h']

theorem stackFunction_negative_witness :
    ((-1 : Int) < 0) ∧
      StackFunction (construct 0 5) { Address := -1, MemoryType := 3 } StackFrameFlags.Irq 9
        = construct 0 5 :=
  ⟨by decide, stackFunction_negative (construct 0 5) { Address := -1, MemoryType := 3 }
    StackFrameFlags.Irq 9 (by decide)⟩

/-- C9. The state `Reset` produces depends only on the master clock it reads, so a second
`Reset` at the same clock changes nothing; after `Reset` the three stacks are empty, the
running cycle counter is 0, the current function is the sentinel -1, the last observed clock
is the clock read, and the table holds exactly the sentinel record, with zero exclusive
cycles, inclusive cycles and call count. -/
theorem reset_idempotent (registerType : Nat) (s s' : State) (masterClock : Nat) :
    Reset registerType s masterClock = Reset registerType s' masterClock ∧
    Reset registerType (Reset registerType s masterClock) masterClock
      = Reset registerType s masterClock ∧
    (Reset registerType s masterClock).functionStack = [] ∧
    (Reset registerType s masterClock).stackFlags = [] ∧
    (Reset registerType s masterClock).cycleCountStack = [] ∧
    (Reset registerType s masterClock).currentCycleCount = 0 ∧
    (Reset registerType s masterClock).currentFunction = -1 ∧
    (Reset registerType s masterClock).prevMasterClock = masterClock ∧
    ∃ root : ProfiledFunction,
      (Reset registerType s masterClock).functions = [(-1, root)] ∧
      root.ExclusiveCycles = 0 ∧ root.InclusiveCycles = 0 ∧ root.CallCount = 0 := by
  refine ⟨rfl, rfl, rfl, rfl, rfl, rfl, rfl, rfl, ?_⟩
  exact ⟨_, rfl, rfl, rfl, rfl⟩

/-! ## Snapshots -/

theorem UpdateCycles_get_frame (s : State) (c : Nat) (k : Int) :
    ProfiledFunction.sameCounts (s.functions.get k) ((UpdateCycles s c).functions.get k) := by
  simp only [UpdateCycles, UpdateCycles.loop_eq_foldl]
  apply FunctionMap.foldl_update_preserves
    (fun t => ProfiledFunction.sameCounts (s.functions.get k) (t.get k))
  · intro t k' _ ht
    rw [FunctionMap.get_update]
    split
    · next h => subst h; exact ht
    · exact ht
  · rw [FunctionMap.get_update]
    split
    · next h => subst h; exact ⟨rfl, rfl, rfl⟩
    · exact ⟨rfl, rfl, rfl⟩

theorem UpdateCycles_find_isSome (s : State) (c : Nat) (k : Int)
    (h : (s.functions.find k).isSome) : ((UpdateCycles s c).functions.find k).isSome := by
  simp only [UpdateCycles, UpdateCycles.loop_eq_foldl]
  apply FunctionMap.foldl_update_preserves (fun t => (t.find k).isSome = true)
  · intro t k' _ ht
    exact FunctionMap.find_update_isSome t k' k _ ht
  · exact FunctionMap.find_update_isSome _ _ k _ h

/-- C10. Two consecutive `GetProfilerData` calls at the same master clock write the same
records and report the same `functionCount`, and the second call returns the state it was
given; at any clock `GetProfilerData` leaves the three stacks and the current function as
they were, keeps every record of the table and changes neither its `CallCount` nor its
`MinCycles` nor its `MaxCycles`. -/
theorem getProfilerData_twice (s : State) (masterClock : Nat) :
    (GetProfilerData (GetProfilerData s masterClock).1 masterClock).2
      = (GetProfilerData s masterClock).2 ∧
    (GetProfilerData (GetProfilerData s masterClock).1 masterClock).1
      = (GetProfilerData s masterClock).1 ∧
    ∀ clock : Nat,
      (GetProfilerData s clock).1.functionStack = s.functionStack ∧
      (GetProfilerData s clock).1.stackFlags = s.stackFlags ∧
      (GetProfilerData s clock).1.cycleCountStack = s.cycleCountStack ∧
      (GetProfilerData s clock).1.currentFunction = s.currentFunction ∧
      ∀ (key : Int) (func : ProfiledFunction), s.functions.find key = some func →
        ∃ func' : ProfiledFunction,
          (GetProfilerData s clock).1.functions.find key = some func' ∧
          func'.CallCount = func.CallCount ∧ func'.MinCycles = func.MinCycles ∧
          func'.MaxCycles = func.MaxCycles := by
  refine ⟨?_, ?_, ?_⟩
  · simp only [GetProfilerData, UpdateCycles_twice]
  · simp only [GetProfilerData, UpdateCycles_twice]
  · intro clock
    refine ⟨rfl, rfl, rfl, rfl, ?_⟩
    intro key func hfind
    have hsome := UpdateCycles_find_isSome s clock key (by simp [hfind])
    obtain ⟨func', hfunc'⟩ := Option.isSome_iff_exists.mp hsome
    have hframe := UpdateCycles_get_frame s clock key
    rw [FunctionMap.get_of_find hfind, FunctionMap.get_of_find hfunc'] at hframe
    exact ⟨func', hfunc', hframe.1, hframe.2.1, hframe.2.2⟩

/-! ## Call counts -/

theorem ProfiledFunction.sameCounts.refl (r : ProfiledFunction) : r.sameCounts r :=
  ⟨rfl, rfl, rfl⟩

theorem ProfiledFunction.sameCounts.trans {a b c : ProfiledFunction} (h₁ : a.sameCounts b)
    (h₂ : b.sameCounts c) : a.sameCounts c :=
  ⟨h₂.1.trans h₁.1, h₂.2.1.trans h₁.2.1, h₂.2.2.trans h₁.2.2⟩

theorem createRecord_get_frame (s : State) (addr : AddressInfo) (k : Int) :
    ProfiledFunction.sameCounts (s.functions.get k)
      ((StackFunction.createRecord s addr).functions.get k) := by
  unfold StackFunction.createRecord
  by_cases h : (s.functions.find (functionKey addr)).isNone
  · simp only [h, if_true, FunctionMap.get_update]
    split
    · next hk =>
      subst hk
      have : s.functions.get (functionKey addr) = ProfiledFunction.init := by
        simp only [FunctionMap.get]
        rw [Option.isNone_iff_eq_none.mp h]; rfl
      rw [this]; exact ⟨rfl, rfl, rfl⟩
    · exact ⟨rfl, rfl, rfl⟩
  · simp only [h, Bool.false_eq_true, if_false]
    exact ⟨rfl, rfl, rfl⟩

theorem createRecord_find_isSome (s : State) (addr : AddressInfo) (k : Int)
    (h : (s.functions.find k).isSome) :
    ((StackFunction.createRecord s addr).functions.find k).isSome := by
  simp only [StackFunction.createRecord]
  split
  · exact FunctionMap.find_update_isSome _ _ k _ (FunctionMap.find_update_isSome _ _ k _ h)
  · exact h

theorem createRecord_stacks (s : State) (addr : AddressInfo) :
    (StackFunction.createRecord s addr).functionStack = s.functionStack ∧
    (StackFunction.createRecord s addr).stackFlags = s.stackFlags ∧
    (StackFunction.createRecord s addr).cycleCountStack = s.cycleCountStack ∧
    (StackFunction.createRecord s addr).currentCycleCount = s.currentCycleCount ∧
    (StackFunction.createRecord s addr).prevMasterClock = s.prevMasterClock ∧
    (StackFunction.createRecord s addr).currentFunction = s.currentFunction := by
  simp only [StackFunction.createRecord]
  split <;> exact ⟨rfl, rfl, rfl, rfl, rfl, rfl⟩

/-- The call count of a key after `StackFunction`. -/
theorem StackFunction_callCount (s : State) (addr : AddressInfo) (fl : StackFrameFlags)
    (c : Nat) (k : Int) (h : 0 ≤ addr.Address) :
    ((StackFunction s addr fl c).functions.get k).CallCount
      = if functionKey addr = k then wrap64 ((s.functions.get k).CallCount + 1)
        else (s.functions.get k).CallCount := by
  have h₁ := createRecord_get_frame s addr k
  have h₂ := UpdateCycles_get_frame (StackFunction.createRecord s addr) c k
  simp only [StackFunction, h, if_true, FunctionMap.get_update]
  split
  · next hk => subst hk; simp only [h₂.1, h₁.1]
  · rw [h₂.1, h₁.1]

theorem StackFunction_find_isSome (s : State) (addr : AddressInfo) (fl : StackFrameFlags)
    (c : Nat) (k : Int) (h : (s.functions.find k).isSome) :
    ((StackFunction s addr fl c).functions.find k).isSome := by
  unfold StackFunction
  split
  · exact FunctionMap.find_update_isSome _ _ k _
      (UpdateCycles_find_isSome _ c k (createRecord_find_isSome s addr k h))
  · exact h

theorem StackFunction_find_key (s : State) (addr : AddressInfo) (fl : StackFrameFlags)
    (c : Nat) (h : 0 ≤ addr.Address) :
    ((StackFunction s addr fl c).functions.find (functionKey addr)).isSome := by
  simp only [StackFunction, h, if_true, FunctionMap.find_update_self, Option.isSome_some]

theorem UnstackFunction_get_callCount (s : State) (c : Nat) (k : Int) :
    ((UnstackFunction s c).functions.get k).CallCount = (s.functions.get k).CallCount := by
  unfold UnstackFunction
  split
  · rfl
  · simp only [FunctionMap.get_update]
    split
    · next hk => subst hk; exact (UpdateCycles_get_frame s c _).1
    · exact (UpdateCycles_get_frame s c k).1

theorem UnstackFunction_find_isSome (s : State) (c : Nat) (k : Int)
    (h : (s.functions.find k).isSome) : ((UnstackFunction s c).functions.find k).isSome := by
  unfold UnstackFunction
  split
  · exact h
  · exact FunctionMap.find_update_isSome _ _ k _ (UpdateCycles_find_isSome s c k h)

theorem step_find_isSome (reg : Nat) (s : State) (e : Event) (k : Int)
    (he : e.isReset = false) (h : (s.functions.find k).isSome) :
    ((step reg s e).functions.find k).isSome := by
  cases e with
  | StackFunction addr fl c => exact StackFunction_find_isSome s addr fl c k h
  | UnstackFunction c => exact UnstackFunction_find_isSome s c k h
  | GetProfilerData c => exact UpdateCycles_find_isSome s c k h
  | Reset c => simp [Event.isReset] at he

theorem run_find_isSome (reg : Nat) (events : List Event) (s : State) (k : Int)
    (he : noReset events = true) (h : (s.functions.find k).isSome) :
    ((run reg s events).functions.find k).isSome := by
  induction events generalizing s with
  | nil => exact h
  | cons e rest ih =>
    simp only [noReset, List.all_cons, Bool.and_eq_true, Bool.not_eq_true'] at he
    exact ih (step reg s e) (by simpa [noReset] using he.2) (step_find_isSome reg s e k he.1 h)

theorem step_callCount (reg : Nat) (s : State) (e : Event) (k : Int)
    (he : e.isReset = false) :
    ((step reg s e).functions.get k).CallCount
      = if e.stacks k = true then wrap64 ((s.functions.get k).CallCount + 1)
        else (s.functions.get k).CallCount := by
  cases e with
  | StackFunction addr fl c =>
    by_cases h : 0 ≤ addr.Address
    · simp only [step, StackFunction_callCount s addr fl c k h, Event.stacks, h, decide_True,
        Bool.true_and, decide_eq_true_eq]
    · have : StackFunction s addr fl c = s := by simp [StackFunction, h]
      simp [step, this, Event.stacks, h]
  | UnstackFunction c => simp [step, Event.stacks, UnstackFunction_get_callCount]
  | GetProfilerData c =>
    simp [step, Event.stacks, GetProfilerData, (UpdateCycles_get_frame s c k).1]
  | Reset c => simp [Event.isReset] at he

theorem run_callCount (reg : Nat) (events : List Event) (s : State) (k : Int)
    (he : noReset events = true) (hlt : (s.functions.get k).CallCount < UINT64_SIZE) :
    ((run reg s events).functions.get k).CallCount
      = ((s.functions.get k).CallCount + countCalls k events) % UINT64_SIZE := by
  induction events generalizing s with
  | nil =>
    simp only [run, countCalls, List.filter_nil, List.length_nil, List.foldl_nil, Nat.add_zero]
    exact (Nat.mod_eq_of_lt hlt).symm
  | cons e rest ih =>
    simp only [noReset, List.all_cons, Bool.and_eq_true, Bool.not_eq_true'] at he
    have hstep := step_callCount reg s e k he.1
    have hrest : noReset rest = true := by simpa [noReset] using he.2
    have hrun : run reg s (e :: rest) = run reg (step reg s e) rest := rfl
    rw [hrun]
    by_cases hk : e.stacks k = true
    · have hc : countCalls k (e :: rest) = countCalls k rest + 1 := by
        simp [countCalls, List.filter_cons, hk]
      rw [if_pos hk] at hstep
      have hlt' : ((step reg s e).functions.get k).CallCount < UINT64_SIZE := by
        rw [hstep]; exact Nat.mod_lt _ (by decide)
      rw [ih (step reg s e) hrest hlt', hstep, hc]
      simp only [wrap64, UINT64_SIZE]
      omega
    · have hc : countCalls k (e :: rest) = countCalls k rest := by
        simp [countCalls, List.filter_cons, hk]
      rw [if_neg hk] at hstep
      rw [ih (step reg s e) hrest (by rw [hstep]; exact hlt), hstep, hc]

theorem countCalls_pos_find (reg : Nat) (events : List Event) (s : State) (k : Int)
    (he : noReset events = true) (hpos : 0 < countCalls k events) :
    ((run reg s events).functions.find k).isSome := by
  induction events generalizing s with
  | nil => simp [countCalls] at hpos
  | cons e rest ih =>
    have he' := he
    simp only [noReset, List.all_cons, Bool.and_eq_true, Bool.not_eq_true'] at he
    have hrest : noReset rest = true := by simpa [noReset] using he.2
    have hrun : run reg s (e :: rest) = run reg (step reg s e) rest := rfl
    rw [hrun]
    by_cases hk : e.stacks k = true
    · apply run_find_isSome reg rest _ k hrest
      cases e with
      | StackFunction addr fl c =>
        simp only [Event.stacks, Bool.and_eq_true, decide_eq_true_eq] at hk
        obtain ⟨h0, hkey⟩ := hk
        subst hkey
        exact StackFunction_find_key s addr fl c h0
      | UnstackFunction c => simp [Event.stacks] at hk
      | GetProfilerData c => simp [Event.stacks] at hk
      | Reset c => simp [Event.stacks] at hk
    · have hc : countCalls k (e :: rest) = countCalls k rest := by
        simp [countCalls, List.filter_cons, hk]
      rw [hc] at hpos
      exact ih (step reg s e) hrest hpos

theorem Reset_get_callCount (reg : Nat) (s : State) (c : Nat) (k : Int) :
    ((Reset reg s c).functions.get k).CallCount = 0 := by
  by_cases h : ResetFunctionIndex = k <;>
    simp [Reset, InternalReset, FunctionMap.get_update, h, ProfiledFunction.init,
      FunctionMap.get, FunctionMap.find]

/-- C4. After `Reset` and any sequence of `StackFunction`, `UnstackFunction` and
`GetProfilerData` calls, the 64-bit `CallCount` of the record of a key holds the number of
`StackFunction` calls of the sequence made with a non-negative address resolving to that key:
it is that number whenever the number is one a `uint64_t` can hold, and that number modulo
`2 ^ 64` in any case. A key stacked at least once has a record, and neither
`UnstackFunction` nor a cycle flush changes the `CallCount` of any key. -/
theorem callCount_correct (registerType : Nat) (s : State) (masterClock : Nat)
    (events : List Event) (key : Int) (hcalls : noReset events = true) :
    (countCalls key events < UINT64_SIZE →
      ∀ func : ProfiledFunction,
        (run registerType (Reset registerType s masterClock) events).functions.find key
          = some func → func.CallCount = countCalls key events) ∧
    (∀ func : ProfiledFunction,
      (run registerType (Reset registerType s masterClock) events).functions.find key
        = some func → func.CallCount = countCalls key events % UINT64_SIZE) ∧
    (0 < countCalls key events →
      ((run registerType (Reset registerType s masterClock) events).functions.find key).isSome
        = true) ∧
    (∀ (t : State) (clock : Nat) (k : Int),
      ((UnstackFunction t clock).functions.get k).CallCount = (t.functions.get k).CallCount ∧
      ((UpdateCycles t clock).functions.get k).CallCount = (t.functions.get k).CallCount) := by
  have hmod : ∀ func : ProfiledFunction,
      (run registerType (Reset registerType s masterClock) events).functions.find key
        = some func → func.CallCount = countCalls key events % UINT64_SIZE := by
    intro func hfind
    have h := run_callCount registerType events (Reset registerType s masterClock) key hcalls
      (by rw [Reset_get_callCount]; decide)
    rw [Reset_get_callCount, FunctionMap.get_of_find hfind, Nat.zero_add] at h
    exact h
  refine ⟨?_, hmod, ?_, ?_⟩
  · intro hfit func hfind
    rw [hmod func hfind, Nat.mod_eq_of_lt hfit]
  · intro hpos
    exact countCalls_pos_find registerType events _ key hcalls hpos
  · intro t clock k
    exact ⟨UnstackFunction_get_callCount t clock k, (UpdateCycles_get_frame t clock k).1⟩

theorem callCount_correct_witness :
    noReset sampleCalls = true ∧ countCalls 16 sampleCalls = 2 ∧
    ((run 0 (Reset 0 (construct 0 0) 10) sampleCalls).functions.get 16).CallCount = 2 ∧
    ∀ func : ProfiledFunction,
      (run 0 (Reset 0 (construct 0 0) 10) sampleCalls).functions.find 16 = some func →
        func.CallCount = countCalls 16 sampleCalls :=
  ⟨by decide, by decide, by decide,
    (callCount_correct 0 (construct 0 0) 10 sampleCalls 16 (by decide)).1 (by decide)⟩

/-! ## Conservation of exclusive cycles -/

theorem sumExclusive_update (t : FunctionMap) (k : Int)
    (f : ProfiledFunction → ProfiledFunction) :
    sumExclusive (t.update k f) + (t.get k).ExclusiveCycles
      = sumExclusive t + (f (t.get k)).ExclusiveCycles := by
  induction t with
  | nil => simp [FunctionMap.update, sumExclusive, FunctionMap.get, FunctionMap.find,
      ProfiledFunction.init]
  | cons p rest ih =>
    obtain ⟨k₁, r⟩ := p
    by_cases h : k₁ = k
    · simp [FunctionMap.update, sumExclusive, FunctionMap.get, FunctionMap.find, h]
      omega
    · simp only [FunctionMap.update, sumExclusive, FunctionMap.get, FunctionMap.find, h,
        if_false, List.map_cons, List.sum_cons] at ih ⊢
      omega

theorem get_exclusive_le_sum (t : FunctionMap) (k : Int) :
    (t.get k).ExclusiveCycles ≤ sumExclusive t := by
  induction t with
  | nil => simp [FunctionMap.get, FunctionMap.find, ProfiledFunction.init]
  | cons p rest ih =>
    obtain ⟨k₁, r⟩ := p
    by_cases h : k₁ = k
    · simp [sumExclusive, FunctionMap.get, FunctionMap.find, h]
    · simp only [sumExclusive, FunctionMap.get, FunctionMap.find, h, if_false, List.map_cons,
        List.sum_cons] at ih ⊢
      omega

theorem sumExclusive_update_same (t : FunctionMap) (k : Int)
    (f : ProfiledFunction → ProfiledFunction)
    (hf : (f (t.get k)).ExclusiveCycles = (t.get k).ExclusiveCycles) :
    sumExclusive (t.update k f) = sumExclusive t := by
  have := sumExclusive_update t k f
  omega

theorem sumExclusive_foldl_addInclusive (keys : List Int) (gap : Nat) (t : FunctionMap) :
    sumExclusive (keys.foldl (fun t k => t.update k (addInclusive gap)) t) = sumExclusive t :=
  FunctionMap.foldl_update_preserves (fun t' => sumExclusive t' = sumExclusive t) _ keys
    (fun t' k _ ht => by
      show sumExclusive (t'.update k (addInclusive gap)) = sumExclusive t
      rw [sumExclusive_update_same t' k _ rfl]; exact ht) t rfl

theorem sub64_of_le {a b : Nat} (hab : b ≤ a) (ha : a < UINT64_SIZE) : sub64 a b = a - b := by
  simp only [sub64, UINT64_SIZE] at ha ⊢
  omega

theorem wrap64_of_lt {n : Nat} (h : n < UINT64_SIZE) : wrap64 n = n := by
  simp only [wrap64, UINT64_SIZE] at h ⊢
  omega

theorem Conserved.updateCycles_conserved {start : Nat} {s : State} (h : Conserved start s) {c : Nat}
    (hc : s.prevMasterClock ≤ c) (hlt : c < UINT64_SIZE) :
    Conserved start (UpdateCycles s c) := by
  obtain ⟨h₁, h₂, h₃⟩ := h
  refine ⟨le_trans h₁ hc, hlt, ?_⟩
  have hle := get_exclusive_le_sum s.functions s.currentFunction
  have hupd := sumExclusive_update s.functions s.currentFunction
    (addBoth (sub64 c s.prevMasterClock))
  simp only [UpdateCycles, UpdateCycles.loop_eq_foldl, sumExclusive_foldl_addInclusive]
  rw [sub64_of_le hc hlt] at hupd ⊢
  have hw : wrap64 ((s.functions.get s.currentFunction).ExclusiveCycles + (c - s.prevMasterClock))
      = (s.functions.get s.currentFunction).ExclusiveCycles + (c - s.prevMasterClock) := by
    apply wrap64_of_lt
    simp only [UINT64_SIZE] at hlt ⊢
    omega
  simp only [addBoth, hw] at hupd
  omega

theorem FunctionMap.get_of_isNone {t : FunctionMap} {k : Int} (h : (t.find k).isNone) :
    t.get k = ProfiledFunction.init := by
  simp only [FunctionMap.get]
  rw [Option.isNone_iff_eq_none.mp h]; rfl

theorem Conserved.createRecord_conserved {start : Nat} {s : State} (h : Conserved start s)
    (addr : AddressInfo) : Conserved start (StackFunction.createRecord s addr) := by
  obtain ⟨h₁, h₂, h₃⟩ := h
  have hst := createRecord_stacks s addr
  refine ⟨by rw [hst.2.2.2.2.1]; exact h₁, by rw [hst.2.2.2.2.1]; exact h₂, ?_⟩
  rw [hst.2.2.2.2.1, ← h₃]
  simp only [StackFunction.createRecord]
  split
  · next habs =>
    rw [sumExclusive_update_same _ _ _ rfl, sumExclusive_update_same]
    rw [FunctionMap.get_of_isNone habs]
  · rfl

theorem Conserved.stackFunction_conserved {start : Nat} {s : State} (h : Conserved start s)
    (addr : AddressInfo) (fl : StackFrameFlags) {c : Nat}
    (hc : s.prevMasterClock ≤ c) (hlt : c < UINT64_SIZE) :
    Conserved start (StackFunction s addr fl c) ∧ (StackFunction s addr fl c).prevMasterClock ≤ c := by
  unfold StackFunction
  split
  · have h₁ := h.createRecord_conserved addr
    have hp : (StackFunction.createRecord s addr).prevMasterClock ≤ c := by
      rw [(createRecord_stacks s addr).2.2.2.2.1]; exact hc
    obtain ⟨g₁, g₂, g₃⟩ := h₁.updateCycles_conserved hp hlt
    refine ⟨⟨g₁, g₂, ?_⟩, le_refl _⟩
    show sumExclusive (FunctionMap.update _ _ _) = _
    rw [sumExclusive_update_same _ _ _ rfl]
    exact g₃
  · exact ⟨h, hc⟩

theorem Conserved.unstackFunction_conserved {start : Nat} {s : State} (h : Conserved start s) {c : Nat}
    (hc : s.prevMasterClock ≤ c) (hlt : c < UINT64_SIZE) :
    Conserved start (UnstackFunction s c) ∧ (UnstackFunction s c).prevMasterClock ≤ c := by
  unfold UnstackFunction
  split
  · exact ⟨h, hc⟩
  · obtain ⟨g₁, g₂, g₃⟩ := h.updateCycles_conserved hc hlt
    refine ⟨⟨g₁, g₂, ?_⟩, le_refl _⟩
    show sumExclusive (FunctionMap.update _ _ _) = _
    rw [sumExclusive_update_same _ _ _ rfl]
    exact g₃

theorem clockOrdered_lt : ∀ (events : List Event) (start : Nat),
    clockOrdered start events = true → start < UINT64_SIZE
  | [], start, h => by simpa [clockOrdered] using h
  | e :: rest, start, h => by
    simp only [clockOrdered, Bool.and_eq_true, decide_eq_true_eq] at h
    exact lt_of_le_of_lt h.1 (clockOrdered_lt rest _ h.2)

theorem Conserved.step_conserved {start : Nat} {s : State} (h : Conserved start s) (reg : Nat)
    (e : Event) (he : e.isReset = false) (hc : s.prevMasterClock ≤ e.masterClock)
    (hlt : e.masterClock < UINT64_SIZE) :
    Conserved start (step reg s e) ∧ (step reg s e).prevMasterClock ≤ e.masterClock := by
  cases e with
  | StackFunction addr fl c => exact h.stackFunction_conserved addr fl hc hlt
  | UnstackFunction c => exact h.unstackFunction_conserved hc hlt
  | GetProfilerData c => exact ⟨h.updateCycles_conserved hc hlt, le_refl _⟩
  | Reset c => simp [Event.isReset] at he

theorem Conserved.run_conserved {start : Nat} (reg : Nat) (events : List Event) (s : State) (clock : Nat)
    (h : Conserved start s) (hp : s.prevMasterClock ≤ clock)
    (he : noReset events = true) (hclock : clockOrdered clock events = true) :
    Conserved start (run reg s events) := by
  induction events generalizing s clock with
  | nil => exact h
  | cons e rest ih =>
    simp only [noReset, List.all_cons, Bool.and_eq_true, Bool.not_eq_true'] at he
    simp only [clockOrdered, Bool.and_eq_true, decide_eq_true_eq] at hclock
    have hst := h.step_conserved reg e he.1 (le_trans hp hclock.1) (clockOrdered_lt rest _ hclock.2)
    exact ih (Profiler.step reg s e) e.masterClock hst.1 hst.2 (by simpa [noReset] using he.2)
      hclock.2

theorem Conserved.reset_conserved (reg : Nat) (s : State) (c : Nat) (hc : c < UINT64_SIZE) :
    Conserved c (Reset reg s c) := by
  refine ⟨le_refl _, hc, ?_⟩
  simp [Reset, InternalReset, sumExclusive, FunctionMap.update, ProfiledFunction.init]

/-- C2. In the state reached from `Reset` (reading the clock `start`) by any sequence of
`StackFunction`, `UnstackFunction` and `GetProfilerData` calls with non-decreasing 64-bit
clock readings, the `ExclusiveCycles` of all records of the table add up to the last
observed master clock minus `start`; so after a further flush at any later clock they add up
to the cycles elapsed since the reset. Frame flags play no part. -/
theorem exclusive_conservation (registerType : Nat) (s : State) (start : Nat)
    (events : List Event) (hcalls : noReset events = true)
    (hclock : clockOrdered start events = true) :
    start ≤ (run registerType (Reset registerType s start) events).prevMasterClock ∧
    sumExclusive (run registerType (Reset registerType s start) events).functions
      = (run registerType (Reset registerType s start) events).prevMasterClock - start ∧
    ∀ clock : Nat,
      (run registerType (Reset registerType s start) events).prevMasterClock ≤ clock →
      clock < UINT64_SIZE →
      (UpdateCycles (run registerType (Reset registerType s start) events) clock).prevMasterClock
        = clock ∧
      sumExclusive
        (UpdateCycles (run registerType (Reset registerType s start) events) clock).functions
        = clock - start := by
  have hinv := Conserved.run_conserved registerType events (Reset registerType s start) start
    (Conserved.reset_conserved registerType s start (clockOrdered_lt events start hclock)) (le_refl _)
    hcalls hclock
  refine ⟨hinv.1, hinv.2.2, ?_⟩
  intro clock hle hlt
  exact ⟨rfl, (hinv.updateCycles_conserved hle hlt).2.2⟩

theorem exclusive_conservation_witness :
    noReset sampleCalls = true ∧ clockOrdered 10 sampleCalls = true ∧
    (run 0 (Reset 0 (construct 0 0) 10) sampleCalls).prevMasterClock = 15 ∧
    sumExclusive (run 0 (Reset 0 (construct 0 0) 10) sampleCalls).functions
      = (run 0 (Reset 0 (construct 0 0) 10) sampleCalls).prevMasterClock - 10 :=
  ⟨by decide, by decide, by decide,
    (exclusive_conservation 0 (construct 0 0) 10 sampleCalls (by decide) (by decide)).2.1⟩

/-! ## Inclusive against exclusive cycles -/

theorem InclusiveCovers.update {t : FunctionMap} (h : InclusiveCovers t) (k : Int)
    (f : ProfiledFunction → ProfiledFunction)
    (hf : (f (t.get k)).ExclusiveCycles ≤ (f (t.get k)).InclusiveCycles) :
    InclusiveCovers (t.update k f) := by
  intro key
  rw [FunctionMap.get_update]
  split
  · exact hf
  · exact h key

theorem InclusiveCovers.loop (fs : List Int) (fl : List StackFrameFlags) (gap : Nat) (n : Nat)
    (t : FunctionMap) (h : InclusiveCovers t)
    (hfits : UpdateCycles.loopFits fs fl gap n t = true) :
    InclusiveCovers (UpdateCycles.loop fs fl gap n t) := by
  induction n generalizing t with
  | zero => exact h
  | succ i ih =>
    simp only [UpdateCycles.loopFits, Bool.and_eq_true, decide_eq_true_eq] at hfits
    have hupd : InclusiveCovers (t.update (fs.getD i 0) (addInclusive gap)) := by
      apply h.update
      have := h (fs.getD i 0)
      simp only [addInclusive, wrap64_of_lt hfits.1]
      omega
    by_cases hflag : fl.getD i StackFrameFlags.None = StackFrameFlags.None
    · simp only [UpdateCycles.loop, ne_eq, hflag, not_true_eq_false, if_false]
      apply ih _ hupd
      have h₂ := hfits.2
      rwa [if_neg (not_not.mpr hflag)] at h₂
    · simp only [UpdateCycles.loop, ne_eq, hflag, not_false_eq_true, if_true]
      exact hupd

theorem wrap64_le (n : Nat) : wrap64 n ≤ n := Nat.mod_le _ _

theorem InclusiveCovers.updateCycles_covers {s : State} (h : InclusiveCovers s.functions) (c : Nat)
    (hfits : UpdateCycles.fits s c = true) : InclusiveCovers (UpdateCycles s c).functions := by
  simp only [UpdateCycles.fits, Bool.and_eq_true, decide_eq_true_eq] at hfits
  apply InclusiveCovers.loop _ _ _ _ _ _ hfits.2
  apply h.update
  have := h s.currentFunction
  have := wrap64_le ((s.functions.get s.currentFunction).ExclusiveCycles
    + sub64 c s.prevMasterClock)
  simp only [addBoth, wrap64_of_lt hfits.1]
  omega

theorem InclusiveCovers.createRecord_covers {s : State} (h : InclusiveCovers s.functions)
    (addr : AddressInfo) : InclusiveCovers (StackFunction.createRecord s addr).functions := by
  simp only [StackFunction.createRecord]
  split
  · apply InclusiveCovers.update
    · apply h.update
      exact le_refl _
    · rw [FunctionMap.get_update, if_pos rfl]
      exact le_refl _
  · exact h

theorem InclusiveCovers.step_covers {s : State} (h : InclusiveCovers s.functions) (reg : Nat)
    (e : Event) (hfits : stepFits s e = true) : InclusiveCovers (step reg s e).functions := by
  cases e with
  | StackFunction addr fl c =>
    simp only [stepFits] at hfits
    simp only [Profiler.step, StackFunction]
    split
    · next h0 =>
      rw [if_pos h0] at hfits
      apply InclusiveCovers.update
      · exact (h.createRecord_covers addr).updateCycles_covers c hfits
      · exact (h.createRecord_covers addr).updateCycles_covers c hfits _
    · exact h
  | UnstackFunction c =>
    simp only [stepFits] at hfits
    simp only [Profiler.step, UnstackFunction]
    split
    · exact h
    · next x hx =>
      rw [hx] at hfits
      apply InclusiveCovers.update
      · exact h.updateCycles_covers c hfits
      · exact h.updateCycles_covers c hfits _
  | GetProfilerData c => exact h.updateCycles_covers c hfits
  | Reset c =>
    intro key
    by_cases hk : ResetFunctionIndex = key <;>
      simp [Profiler.step, Reset, InternalReset, FunctionMap.get_update, hk,
        ProfiledFunction.init, FunctionMap.get, FunctionMap.find]

theorem InclusiveCovers.run_covers (reg : Nat) (events : List Event) (s : State)
    (h : InclusiveCovers s.functions) (hfits : runFits reg s events = true) :
    InclusiveCovers (run reg s events).functions := by
  induction events generalizing s with
  | nil => exact h
  | cons e rest ih =>
    simp only [runFits, Bool.and_eq_true] at hfits
    exact ih (Profiler.step reg s e) (h.step_covers reg e hfits.1) hfits.2

theorem InclusiveCovers.reset_covers (reg : Nat) (s : State) (c : Nat) :
    InclusiveCovers (Reset reg s c).functions := by
  intro key
  by_cases hk : ResetFunctionIndex = key <;>
    simp [Reset, InternalReset, FunctionMap.get_update, hk,
      ProfiledFunction.init, FunctionMap.get, FunctionMap.find]

/-- C3, as amended. In every state reached from `Reset` by a sequence of `StackFunction`,
`UnstackFunction`, `GetProfilerData` and `Reset` calls (any identities, flags and clock
readings) in which no addition to an `InclusiveCycles` counter wrapped around `2 ^ 64`,
every record of the table has `InclusiveCycles >= ExclusiveCycles`. -/
theorem inclusive_ge_exclusive (registerType : Nat) (s : State) (start : Nat)
    (events : List Event)
    (hfits : runFits registerType (Reset registerType s start) events = true) :
    ∀ (key : Int) (func : ProfiledFunction),
      (run registerType (Reset registerType s start) events).functions.find key = some func →
        func.ExclusiveCycles ≤ func.InclusiveCycles := by
  intro key func hfind
  have h := InclusiveCovers.run_covers registerType events _
    (InclusiveCovers.reset_covers registerType s start) hfits key
  rwa [FunctionMap.get_of_find hfind] at h

theorem inclusive_ge_exclusive_witness :
    runFits 0 (Reset 0 (construct 0 0) 10) sampleCalls = true ∧
    ((run 0 (Reset 0 (construct 0 0) 10) sampleCalls).functions.get 16).ExclusiveCycles = 2 ∧
    ((run 0 (Reset 0 (construct 0 0) 10) sampleCalls).functions.get 16).InclusiveCycles = 5 ∧
    ∀ (key : Int) (func : ProfiledFunction),
      (run 0 (Reset 0 (construct 0 0) 10) sampleCalls).functions.find key = some func →
        func.ExclusiveCycles ≤ func.InclusiveCycles :=
  ⟨by decide, by decide, by decide,
    inclusive_ge_exclusive 0 (construct 0 0) 10 sampleCalls (by decide)⟩

/-- C3 as stated fails: after `Reset` at clock 0, two nested calls of the function at
address 16 at clock 0 and a flush at clock `2 ^ 63`, the record of the function has
`ExclusiveCycles = 2 ^ 63` and `InclusiveCycles = 0` (the gap is added to the 64-bit
`InclusiveCycles` twice, once for the current function and once for its frame on the
stack). -/
theorem inclusive_ge_exclusive_wraps :
    ∃ func : ProfiledFunction,
      (run 0 (Reset 0 (construct 0 0) 0)
        [Event.StackFunction ⟨16, 0⟩ StackFrameFlags.None 0,
         Event.StackFunction ⟨16, 0⟩ StackFrameFlags.None 0,
         Event.GetProfilerData 9223372036854775808]).functions.find 16 = some func ∧
      func.ExclusiveCycles = 9223372036854775808 ∧ func.InclusiveCycles = 0 ∧
      ¬ (func.ExclusiveCycles ≤ func.InclusiveCycles) :=
  ⟨{ ExclusiveCycles := 9223372036854775808, InclusiveCycles := 0, CallCount := 2,
     MinCycles := UINT64_MAX, MaxCycles := 0, Address := ⟨16, 0⟩ },
    by decide, by decide, by decide, by decide⟩

/-! ## What a flush adds to a record -/

theorem FunctionMap.foldl_addInclusive_inclusive (keys : List Int) (gap : Nat)
    (t : FunctionMap) (k : Int) :
    ((keys.foldl (fun t k => t.update k (addInclusive gap)) t).get k).InclusiveCycles
      = keys.foldl (fun x k' => if k' = k then wrap64 (x + gap) else x)
          (t.get k).InclusiveCycles := by
  induction keys generalizing t with
  | nil => rfl
  | cons k₁ rest ih =>
    simp only [List.foldl_cons]
    rw [ih, FunctionMap.get_update]
    by_cases h : k₁ = k
    · subst h; simp [addInclusive]
    · simp [h]

theorem FunctionMap.foldl_addInclusive_get_of_not_mem (keys : List Int) (gap : Nat)
    (t : FunctionMap) (k : Int) (h : k ∉ keys) :
    (keys.foldl (fun t k => t.update k (addInclusive gap)) t).get k = t.get k := by
  induction keys generalizing t with
  | nil => rfl
  | cons k₁ rest ih =>
    simp only [List.mem_cons, not_or] at h
    simp only [List.foldl_cons]
    rw [ih _ h.2, FunctionMap.get_update, if_neg (fun e => h.1 e.symm)]

theorem UpdateCycles_inclusive (s : State) (c : Nat) (k : Int) :
    ((UpdateCycles s c).functions.get k).InclusiveCycles
      = flushedInclusive s c k (s.functions.get k).InclusiveCycles := by
  simp only [UpdateCycles, UpdateCycles.loop_eq_foldl, flushedInclusive,
    FunctionMap.foldl_addInclusive_inclusive, FunctionMap.get_update]
  by_cases h : s.currentFunction = k
  · subst h; simp [addBoth]
  · simp [h]

/-- A flush leaves alone the record of a key that is neither the current function nor
written to by the loop. -/
theorem UpdateCycles_get_untouched (s : State) (c : Nat) (k : Int)
    (hcur : s.currentFunction ≠ k)
    (hk : k ∉ UpdateCycles.touched s.functionStack s.stackFlags
      (UpdateCycles.iterations s.functionStack.length)) :
    (UpdateCycles s c).functions.get k = s.functions.get k := by
  simp only [UpdateCycles, UpdateCycles.loop_eq_foldl]
  rw [FunctionMap.foldl_addInclusive_get_of_not_mem _ _ _ _ hk, FunctionMap.get_update,
    if_neg hcur]

theorem createRecord_inclusive (s : State) (addr : AddressInfo) (k : Int) :
    ((StackFunction.createRecord s addr).functions.get k).InclusiveCycles
      = (s.functions.get k).InclusiveCycles := by
  simp only [StackFunction.createRecord]
  split
  · next habs =>
    simp only [FunctionMap.get_update]
    split
    · next hk => subst hk; rw [FunctionMap.get_of_isNone habs]; rfl
    · rfl
  · rfl

theorem flushedInclusive_createRecord (s : State) (addr : AddressInfo) (c : Nat) (k : Int)
    (x : Nat) :
    flushedInclusive (StackFunction.createRecord s addr) c k x = flushedInclusive s c k x := by
  obtain ⟨h₁, h₂, -, -, h₅, h₆⟩ := createRecord_stacks s addr
  simp only [flushedInclusive, h₁, h₂, h₅, h₆]

theorem StackFunction_inclusive (s : State) (addr : AddressInfo) (fl : StackFrameFlags)
    (c : Nat) (k : Int) (h : 0 ≤ addr.Address) :
    ((StackFunction s addr fl c).functions.get k).InclusiveCycles
      = flushedInclusive s c k (s.functions.get k).InclusiveCycles := by
  have h₁ := UpdateCycles_inclusive (StackFunction.createRecord s addr) c k
  rw [flushedInclusive_createRecord, createRecord_inclusive] at h₁
  simp only [StackFunction, h, if_true, FunctionMap.get_update]
  split
  · next hk => subst hk; exact h₁
  · exact h₁

theorem UnstackFunction_inclusive (s : State) (c : Nat) (k : Int)
    (h : s.functionStack ≠ []) :
    ((UnstackFunction s c).functions.get k).InclusiveCycles
      = flushedInclusive s c k (s.functions.get k).InclusiveCycles := by
  have h₁ := UpdateCycles_inclusive s c k
  unfold UnstackFunction
  split
  · next hnone => exact absurd (List.getLast?_eq_none_iff.mp hnone) h
  · simp only [FunctionMap.get_update]
    split
    · next hk => subst hk; exact h₁
    · exact h₁

theorem StackFunction_fields (s : State) (addr : AddressInfo) (fl : StackFrameFlags)
    (c : Nat) (h : 0 ≤ addr.Address) :
    (StackFunction s addr fl c).functionStack = s.functionStack ++ [s.currentFunction] ∧
    (StackFunction s addr fl c).stackFlags = s.stackFlags ++ [fl] ∧
    (StackFunction s addr fl c).cycleCountStack
      = s.cycleCountStack ++ [wrap64 (s.currentCycleCount + sub64 c s.prevMasterClock)] ∧
    (StackFunction s addr fl c).currentFunction = functionKey addr ∧
    (StackFunction s addr fl c).currentCycleCount = 0 ∧
    (StackFunction s addr fl c).prevMasterClock = c := by
  obtain ⟨h₁, h₂, h₃, h₄, h₅, h₆⟩ := createRecord_stacks s addr
  simp only [StackFunction, h, if_true, UpdateCycles, h₁, h₂, h₃, h₄, h₅, h₆, and_self]

theorem UnstackFunction_fields (s : State) (c : Nat) (pre : List Int) (caller : Int)
    (h : s.functionStack = pre ++ [caller]) :
    (UnstackFunction s c).functionStack = pre ∧
    (UnstackFunction s c).stackFlags = s.stackFlags.dropLast ∧
    (UnstackFunction s c).cycleCountStack = s.cycleCountStack.dropLast ∧
    (UnstackFunction s c).currentFunction = caller ∧
    (UnstackFunction s c).currentCycleCount
      = wrap64 (s.cycleCountStack.getLastD 0
          + wrap64 (s.currentCycleCount + sub64 c s.prevMasterClock)) ∧
    (UnstackFunction s c).prevMasterClock = c := by
  simp [UnstackFunction, h, UpdateCycles]

theorem Reset_get_inclusive (reg : Nat) (s : State) (c : Nat) (k : Int) :
    ((Reset reg s c).functions.get k).InclusiveCycles = 0 := by
  by_cases h : ResetFunctionIndex = k <;>
    simp [Reset, InternalReset, FunctionMap.get_update, h, ProfiledFunction.init,
      FunctionMap.get, FunctionMap.find]

/-! ## The interrupt-firewall scenario -/

theorem toInt32_toNat_of_lt {n : Nat} (h : n < 2147483648) : (toInt32 n).toNat = n := by
  unfold toInt32
  have h₁ : n % 4294967296 = n := Nat.mod_eq_of_lt (by omega)
  rw [h₁, if_pos h]
  simp

theorem inclusiveCycles_of_isSome {s : State} {k : Int} (h : (s.functions.find k).isSome) :
    inclusiveCycles s k = some (s.functions.get k).InclusiveCycles := by
  obtain ⟨r, hr⟩ := Option.isSome_iff_exists.mp h
  simp [inclusiveCycles, FunctionMap.get, hr]

/-- C1. Interrupt firewall. `Reset`; `a` is called, calls `b`; `b` is interrupted by the
handler `i` (pushed with a flag other than `None`); `i` calls `c`; then three returns. The
four keys are pairwise distinct and non-negative (which is used for those of `a`, `b` and
`i` only), the clock readings `t0`, `t1 <= ... <= t7` are 64-bit values. The `InclusiveCycles` of `a` is `t3 - t1` when the handler is entered and
still `t3 - t1` after `StackFunction(c)` (state 4) and after each of the first two
`UnstackFunction` calls (states 5 and 6): the three flushes that account time of `i` and `c`
do not touch it. Over the flush that accounts the time `t5 - t4` during which `c` was current
the `InclusiveCycles` of `b` and of `i` each grow by exactly `t5 - t4`. -/
theorem interrupt_firewall (registerType : Nat) (s : State) (a b i c : AddressInfo)
    (flag : StackFrameFlags) (t0 t1 t2 t3 t4 t5 t6 t7 : Nat)
    (ha : 0 ≤ a.Address) (hb : 0 ≤ b.Address) (hi : 0 ≤ i.Address) (hc : 0 ≤ c.Address)
    (hka : 0 ≤ functionKey a) (hkb : 0 ≤ functionKey b) (hki : 0 ≤ functionKey i)
    (hab : functionKey a ≠ functionKey b) (hai : functionKey a ≠ functionKey i)
    (hac : functionKey a ≠ functionKey c) (hbi : functionKey b ≠ functionKey i)
    (hbc : functionKey b ≠ functionKey c) (hic : functionKey i ≠ functionKey c)
    (hflag : flag ≠ StackFrameFlags.None)
    (h12 : t1 ≤ t2) (h23 : t2 ≤ t3) (h34 : t3 ≤ t4) (h45 : t4 ≤ t5)
    (h56 : t5 ≤ t6) (h67 : t6 ≤ t7) (h7 : t7 < UINT64_SIZE) :
    inclusiveCycles (firewallState registerType s a b i c flag t0 t1 t2 t3 t4 t5 t6 t7 3)
      (functionKey a) = some (t3 - t1) ∧
    inclusiveCycles (firewallState registerType s a b i c flag t0 t1 t2 t3 t4 t5 t6 t7 4)
      (functionKey a) = some (t3 - t1) ∧
    inclusiveCycles (firewallState registerType s a b i c flag t0 t1 t2 t3 t4 t5 t6 t7 5)
      (functionKey a) = some (t3 - t1) ∧
    inclusiveCycles (firewallState registerType s a b i c flag t0 t1 t2 t3 t4 t5 t6 t7 6)
      (functionKey a) = some (t3 - t1) ∧
    inclusiveCycles (firewallState registerType s a b i c flag t0 t1 t2 t3 t4 t5 t6 t7 4)
      (functionKey b) = some (t4 - t2) ∧
    inclusiveCycles (firewallState registerType s a b i c flag t0 t1 t2 t3 t4 t5 t6 t7 5)
      (functionKey b) = some (t4 - t2 + (t5 - t4)) ∧
    inclusiveCycles (firewallState registerType s a b i c flag t0 t1 t2 t3 t4 t5 t6 t7 4)
      (functionKey i) = some (t4 - t3) ∧
    inclusiveCycles (firewallState registerType s a b i c flag t0 t1 t2 t3 t4 t5 t6 t7 5)
      (functionKey i) = some (t4 - t3 + (t5 - t4)) := by
  have E3 : firewallState registerType s a b i c flag t0 t1 t2 t3 t4 t5 t6 t7 3
      = StackFunction (StackFunction (StackFunction (Reset registerType s t0)
          a StackFrameFlags.None t1) b StackFrameFlags.None t2) i flag t3 := rfl
  have E4 : firewallState registerType s a b i c flag t0 t1 t2 t3 t4 t5 t6 t7 4
      = StackFunction (StackFunction (StackFunction (StackFunction (Reset registerType s t0)
          a StackFrameFlags.None t1) b StackFrameFlags.None t2) i flag t3)
          c StackFrameFlags.None t4 := rfl
  have E5 : firewallState registerType s a b i c flag t0 t1 t2 t3 t4 t5 t6 t7 5
      = UnstackFunction (StackFunction (StackFunction (StackFunction (StackFunction
          (Reset registerType s t0) a StackFrameFlags.None t1) b StackFrameFlags.None t2)
          i flag t3) c StackFrameFlags.None t4) t5 := rfl
  have E6 : firewallState registerType s a b i c flag t0 t1 t2 t3 t4 t5 t6 t7 6
      = UnstackFunction (UnstackFunction (StackFunction (StackFunction (StackFunction
          (StackFunction (Reset registerType s t0) a StackFrameFlags.None t1)
          b StackFrameFlags.None t2) i flag t3) c StackFrameFlags.None t4) t5) t6 := rfl
  rw [E3, E4, E5, E6]
  clear E3 E4 E5 E6
  have R0 : ∀ k, ((Reset registerType s t0).functions.get k).InclusiveCycles = 0 :=
    Reset_get_inclusive registerType s t0
  have F0 : (Reset registerType s t0).functionStack = [] ∧
      (Reset registerType s t0).stackFlags = [] ∧
      (Reset registerType s t0).currentFunction = -1 ∧
      (Reset registerType s t0).prevMasterClock = t0 := ⟨rfl, rfl, rfl, rfl⟩
  -- the states of the scenario
  generalize Reset registerType s t0 = S0 at *
  generalize hS1 : StackFunction S0 a StackFrameFlags.None t1 = S1
  generalize hS2 : StackFunction S1 b StackFrameFlags.None t2 = S2
  generalize hS3 : StackFunction S2 i flag t3 = S3
  generalize hS4 : StackFunction S3 c StackFrameFlags.None t4 = S4
  generalize hS5 : UnstackFunction S4 t5 = S5
  generalize hS6 : UnstackFunction S5 t6 = S6
  have hna : (-1 : Int) ≠ functionKey a := by omega
  have hnb : (-1 : Int) ≠ functionKey b := by omega
  have hni : (-1 : Int) ≠ functionKey i := by omega
  have L0 : UpdateCycles.iterations 0 = 0 := UpdateCycles.iterations_of_lt (by decide)
  have L1 : UpdateCycles.iterations 1 = 1 := UpdateCycles.iterations_of_lt (by decide)
  have L2 : UpdateCycles.iterations 2 = 2 := UpdateCycles.iterations_of_lt (by decide)
  have L3 : UpdateCycles.iterations 3 = 3 := UpdateCycles.iterations_of_lt (by decide)
  have L4 : UpdateCycles.iterations 4 = 4 := UpdateCycles.iterations_of_lt (by decide)
  -- stacks, current function and last observed clock in each state
  have F1 : S1.functionStack = [-1] ∧ S1.stackFlags = [StackFrameFlags.None] ∧
      S1.currentFunction = functionKey a ∧ S1.prevMasterClock = t1 := by
    have := StackFunction_fields S0 a StackFrameFlags.None t1 ha
    simp only [F0, hS1] at this
    exact ⟨this.1, this.2.1, this.2.2.2.1, this.2.2.2.2.2⟩
  have F2 : S2.functionStack = [-1, functionKey a] ∧
      S2.stackFlags = [StackFrameFlags.None, StackFrameFlags.None] ∧
      S2.currentFunction = functionKey b ∧ S2.prevMasterClock = t2 := by
    have := StackFunction_fields S1 b StackFrameFlags.None t2 hb
    simp only [F1, hS2] at this
    exact ⟨this.1, this.2.1, this.2.2.2.1, this.2.2.2.2.2⟩
  have F3 : S3.functionStack = [-1, functionKey a, functionKey b] ∧
      S3.stackFlags = [StackFrameFlags.None, StackFrameFlags.None, flag] ∧
      S3.currentFunction = functionKey i ∧ S3.prevMasterClock = t3 := by
    have := StackFunction_fields S2 i flag t3 hi
    simp only [F2, hS3] at this
    exact ⟨this.1, this.2.1, this.2.2.2.1, this.2.2.2.2.2⟩
  have F4 : S4.functionStack = [-1, functionKey a, functionKey b, functionKey i] ∧
      S4.stackFlags
        = [StackFrameFlags.None, StackFrameFlags.None, flag, StackFrameFlags.None] ∧
      S4.currentFunction = functionKey c ∧ S4.prevMasterClock = t4 := by
    have := StackFunction_fields S3 c StackFrameFlags.None t4 hc
    simp only [F3, hS4] at this
    exact ⟨this.1, this.2.1, this.2.2.2.1, this.2.2.2.2.2⟩
  have F5 : S5.functionStack = [-1, functionKey a, functionKey b] ∧
      S5.stackFlags = [StackFrameFlags.None, StackFrameFlags.None, flag] ∧
      S5.currentFunction = functionKey i ∧ S5.prevMasterClock = t5 := by
    have := UnstackFunction_fields S4 t5 [-1, functionKey a, functionKey b] (functionKey i)
      (by rw [F4.1]; rfl)
    simp only [F4, hS5] at this
    exact ⟨this.1, this.2.1, this.2.2.2.1, this.2.2.2.2.2⟩
  have N4 : S4.functionStack ≠ [] := by rw [F4.1]; simp
  have N5 : S5.functionStack ≠ [] := by rw [F5.1]; simp
  -- the records exist
  have PA1 : (S1.functions.find (functionKey a)).isSome :=
    hS1 ▸ StackFunction_find_key S0 a _ t1 ha
  have PA2 : (S2.functions.find (functionKey a)).isSome :=
    hS2 ▸ StackFunction_find_isSome S1 b _ t2 _ PA1
  have PA3 : (S3.functions.find (functionKey a)).isSome :=
    hS3 ▸ StackFunction_find_isSome S2 i _ t3 _ PA2
  have PA4 : (S4.functions.find (functionKey a)).isSome :=
    hS4 ▸ StackFunction_find_isSome S3 c _ t4 _ PA3
  have PA5 : (S5.functions.find (functionKey a)).isSome :=
    hS5 ▸ UnstackFunction_find_isSome S4 t5 _ PA4
  have PA6 : (S6.functions.find (functionKey a)).isSome :=
    hS6 ▸ UnstackFunction_find_isSome S5 t6 _ PA5
  have PB2 : (S2.functions.find (functionKey b)).isSome :=
    hS2 ▸ StackFunction_find_key S1 b _ t2 hb
  have PB3 : (S3.functions.find (functionKey b)).isSome :=
    hS3 ▸ StackFunction_find_isSome S2 i _ t3 _ PB2
  have PB4 : (S4.functions.find (functionKey b)).isSome :=
    hS4 ▸ StackFunction_find_isSome S3 c _ t4 _ PB3
  have PB5 : (S5.functions.find (functionKey b)).isSome :=
    hS5 ▸ UnstackFunction_find_isSome S4 t5 _ PB4
  have PI3 : (S3.functions.find (functionKey i)).isSome :=
    hS3 ▸ StackFunction_find_key S2 i _ t3 hi
  have PI4 : (S4.functions.find (functionKey i)).isSome :=
    hS4 ▸ StackFunction_find_isSome S3 c _ t4 _ PI3
  have PI5 : (S5.functions.find (functionKey i)).isSome :=
    hS5 ▸ UnstackFunction_find_isSome S4 t5 _ PI4
  -- what each flush makes of the inclusive cycles of a key
  have T1 : ∀ k, (S1.functions.get k).InclusiveCycles
      = flushedInclusive S0 t1 k (S0.functions.get k).InclusiveCycles :=
    fun k => hS1 ▸ StackFunction_inclusive S0 a StackFrameFlags.None t1 k ha
  have T2 : ∀ k, (S2.functions.get k).InclusiveCycles
      = flushedInclusive S1 t2 k (S1.functions.get k).InclusiveCycles :=
    fun k => hS2 ▸ StackFunction_inclusive S1 b StackFrameFlags.None t2 k hb
  have T3 : ∀ k, (S3.functions.get k).InclusiveCycles
      = flushedInclusive S2 t3 k (S2.functions.get k).InclusiveCycles :=
    fun k => hS3 ▸ StackFunction_inclusive S2 i flag t3 k hi
  have T4 : ∀ k, (S4.functions.get k).InclusiveCycles
      = flushedInclusive S3 t4 k (S3.functions.get k).InclusiveCycles :=
    fun k => hS4 ▸ StackFunction_inclusive S3 c StackFrameFlags.None t4 k hc
  have T5 : ∀ k, (S5.functions.get k).InclusiveCycles
      = flushedInclusive S4 t5 k (S4.functions.get k).InclusiveCycles :=
    fun k => hS5 ▸ UnstackFunction_inclusive S4 t5 k N4
  have T6 : ∀ k, (S6.functions.get k).InclusiveCycles
      = flushedInclusive S5 t6 k (S5.functions.get k).InclusiveCycles :=
    fun k => hS6 ▸ UnstackFunction_inclusive S5 t6 k N5
  -- the inclusive cycles of `a`
  have A1 := T1 (functionKey a)
  have A2 := T2 (functionKey a)
  have A3 := T3 (functionKey a)
  have A4 := T4 (functionKey a)
  have A5 := T5 (functionKey a)
  have A6 := T6 (functionKey a)
  rw [R0] at A1
  simp [flushedInclusive, F0, L0, UpdateCycles.touched, hna] at A1
  simp [flushedInclusive, F1, L1, UpdateCycles.touched, hna] at A2
  simp [flushedInclusive, F2, L2, UpdateCycles.touched, hna, hab.symm] at A3
  simp [flushedInclusive, F3, L3, UpdateCycles.touched, hna, hab.symm, hai.symm, hflag] at A4
  simp [flushedInclusive, F4, L4, UpdateCycles.touched, hna, hab.symm, hai.symm, hac.symm,
    hflag] at A5
  simp [flushedInclusive, F5, L3, UpdateCycles.touched, hna, hab.symm, hai.symm, hflag] at A6
  -- the inclusive cycles of `b`
  have B1 := T1 (functionKey b)
  have B2 := T2 (functionKey b)
  have B3 := T3 (functionKey b)
  have B4 := T4 (functionKey b)
  have B5 := T5 (functionKey b)
  rw [R0] at B1
  simp [flushedInclusive, F0, L0, UpdateCycles.touched, hnb] at B1
  simp [flushedInclusive, F1, L1, UpdateCycles.touched, hnb, hab] at B2
  simp [flushedInclusive, F2, L2, UpdateCycles.touched, hnb, hab] at B3
  simp [flushedInclusive, F3, L3, UpdateCycles.touched, hnb, hab, hbi.symm, hflag] at B4
  simp [flushedInclusive, F4, L4, UpdateCycles.touched, hnb, hab, hbi.symm, hbc.symm,
    hflag] at B5
  -- the inclusive cycles of `i`
  have I1 := T1 (functionKey i)
  have I2 := T2 (functionKey i)
  have I3 := T3 (functionKey i)
  have I4 := T4 (functionKey i)
  have I5 := T5 (functionKey i)
  rw [R0] at I1
  simp [flushedInclusive, F0, L0, UpdateCycles.touched, hni] at I1
  simp [flushedInclusive, F1, L1, UpdateCycles.touched, hni, hai] at I2
  simp [flushedInclusive, F2, L2, UpdateCycles.touched, hni, hai, hbi] at I3
  simp [flushedInclusive, F3, L3, UpdateCycles.touched, hni, hai, hbi, hflag] at I4
  simp [flushedInclusive, F4, L4, UpdateCycles.touched, hni, hai, hbi, hic.symm, hflag] at I5
  -- no addition wraps: every value is bounded by the clock
  rw [inclusiveCycles_of_isSome PA3, inclusiveCycles_of_isSome PA4,
    inclusiveCycles_of_isSome PA5, inclusiveCycles_of_isSome PA6,
    inclusiveCycles_of_isSome PB4, inclusiveCycles_of_isSome PB5,
    inclusiveCycles_of_isSome PI4, inclusiveCycles_of_isSome PI5]
  have G21 : sub64 t2 t1 = t2 - t1 := sub64_of_le h12 (by omega)
  have G32 : sub64 t3 t2 = t3 - t2 := sub64_of_le h23 (by omega)
  have G43 : sub64 t4 t3 = t4 - t3 := sub64_of_le h34 (by omega)
  have G54 : sub64 t5 t4 = t5 - t4 := sub64_of_le h45 (by omega)
  rw [G21] at A2
  rw [G32] at A3 B3
  rw [G43] at B4 I4
  rw [G54] at B5 I5
  rw [A6, A5, A4, A3, A2, A1, B5, B4, B3, B2, B1, I5, I4, I3, I2, I1]
  clear * - h12 h23 h34 h45 h56 h67 h7
  simp only [wrap64, UINT64_SIZE, Option.some.injEq] at h7 ⊢
  refine ⟨?_, ?_, ?_, ?_, ?_, ?_, ?_, ?_⟩ <;> omega

theorem interrupt_firewall_witness :
    ((11 : Nat) ≤ 13 ∧ (38 : Nat) < UINT64_SIZE ∧ StackFrameFlags.Irq ≠ StackFrameFlags.None) ∧
    (inclusiveCycles
        (firewallState 0 (construct 0 0) ⟨16, 0⟩ ⟨32, 0⟩ ⟨48, 0⟩ ⟨64, 0⟩
          StackFrameFlags.Irq 10 11 13 16 20 25 31 38 3) (functionKey ⟨16, 0⟩) = some (16 - 11) ∧
     inclusiveCycles
        (firewallState 0 (construct 0 0) ⟨16, 0⟩ ⟨32, 0⟩ ⟨48, 0⟩ ⟨64, 0⟩
          StackFrameFlags.Irq 10 11 13 16 20 25 31 38 6) (functionKey ⟨16, 0⟩) = some (16 - 11) ∧
     inclusiveCycles
        (firewallState 0 (construct 0 0) ⟨16, 0⟩ ⟨32, 0⟩ ⟨48, 0⟩ ⟨64, 0⟩
          StackFrameFlags.Irq 10 11 13 16 20 25 31 38 5) (functionKey ⟨32, 0⟩)
        = some (20 - 13 + (25 - 20))) :=
  have h := interrupt_firewall 0 (construct 0 0) ⟨16, 0⟩ ⟨32, 0⟩ ⟨48, 0⟩ ⟨64, 0⟩
    StackFrameFlags.Irq 10 11 13 16 20 25 31 38
    (by decide) (by decide) (by decide) (by decide) (by decide) (by decide) (by decide)
    (by decide) (by decide) (by decide) (by decide) (by decide) (by decide) (by decide)
    (by decide) (by decide) (by decide) (by decide) (by decide) (by decide) (by decide)
  ⟨⟨by decide, by decide, by decide⟩, h.1, h.2.2.2.1, h.2.2.2.2.2.1⟩

/-! ## The interrupted routine -/

theorem UpdateCycles.touched_append (fs extra : List Int)
    (fl extraFlags : List StackFrameFlags) (n : Nat) (h₁ : n ≤ fs.length) (h₂ : n ≤ fl.length) :
    UpdateCycles.touched (fs ++ extra) (fl ++ extraFlags) n = UpdateCycles.touched fs fl n := by
  induction n with
  | zero => rfl
  | succ i ih =>
    have e₁ : (fs ++ extra).getD i 0 = fs.getD i 0 := by
      simp [List.getD_eq_getElem?_getD, List.getElem?_append_left (show i < fs.length by omega)]
    have e₂ : (fl ++ extraFlags).getD i StackFrameFlags.None = fl.getD i StackFrameFlags.None := by
      simp [List.getD_eq_getElem?_getD, List.getElem?_append_left (show i < fl.length by omega)]
    simp only [UpdateCycles.touched, e₁, e₂, ih (by omega) (by omega)]

theorem UpdateCycles.touched_concat (fs : List Int) (fl : List StackFrameFlags) (x : Int)
    (f : StackFrameFlags) (h : fl.length = fs.length) :
    UpdateCycles.touched (fs ++ [x]) (fl ++ [f]) (fs.length + 1)
      = x :: (if f ≠ StackFrameFlags.None then [] else UpdateCycles.touched fs fl fs.length) := by
  have e₁ : (fs ++ [x]).getD fs.length 0 = x := by
    simp [List.getD_eq_getElem?_getD]
  have e₂ : (fl ++ [f]).getD fs.length StackFrameFlags.None = f := by
    rw [← h]; simp [List.getD_eq_getElem?_getD]
  simp only [UpdateCycles.touched, e₁, e₂,
    UpdateCycles.touched_append fs [x] fl [f] fs.length (le_refl _) (by omega)]

/-- The writes of the loop when an interrupt frame lies under plain frames: the functions of
the plain frames from the top down, then the interrupted function, and no further. -/
theorem UpdateCycles.touched_above_interrupt (pre : List Int) (preFlags : List StackFrameFlags)
    (r : Int) (flag : StackFrameFlags) (hflag : flag ≠ StackFrameFlags.None)
    (hpre : preFlags.length = pre.length) (post : List Int) :
    ∀ postFlags : List StackFrameFlags, postFlags.length = post.length →
      (∀ f ∈ postFlags, f = StackFrameFlags.None) →
      UpdateCycles.touched (pre ++ [r] ++ post) (preFlags ++ [flag] ++ postFlags)
        (pre ++ [r] ++ post).length = post.reverse ++ [r] := by
  induction post using List.reverseRecOn with
  | nil =>
    intro postFlags hlen _
    have : postFlags = [] := List.length_eq_zero.mp hlen
    subst this
    simp only [List.append_nil, List.length_append, List.length_singleton, List.reverse_nil,
      List.nil_append]
    rw [UpdateCycles.touched_concat pre preFlags r flag hpre, if_pos hflag]
  | append_singleton post x ih =>
    intro postFlags hlen hnone
    obtain ⟨postFlags', f, rfl⟩ : ∃ l f, postFlags = l ++ [f] := by
      rcases List.eq_nil_or_concat postFlags with h | ⟨l, f, h⟩
      · subst h; simp at hlen
      · exact ⟨l, f, by simpa using h⟩
    have hf : f = StackFrameFlags.None := hnone f (by simp)
    have hlen' : postFlags'.length = post.length := by simpa using hlen
    have hnone' : ∀ g ∈ postFlags', g = StackFrameFlags.None :=
      fun g hg => hnone g (by simp [hg])
    have e₁ : pre ++ [r] ++ (post ++ [x]) = (pre ++ [r] ++ post) ++ [x] := by simp
    have e₂ : preFlags ++ [flag] ++ (postFlags' ++ [f]) = (preFlags ++ [flag] ++ postFlags') ++ [f] := by
      simp
    rw [e₁, e₂, List.length_append, List.length_singleton,
      UpdateCycles.touched_concat _ _ x f (by simp [hpre, hlen']), hf]
    simp only [ne_eq, not_true_eq_false, if_false, ih postFlags' hlen' hnone']
    simp

theorem foldl_inclusive_of_not_mem (keys : List Int) (k : Int) (gap x : Nat) (h : k ∉ keys) :
    keys.foldl (fun x k' => if k' = k then wrap64 (x + gap) else x) x = x := by
  induction keys generalizing x with
  | nil => rfl
  | cons k₁ rest ih =>
    simp only [List.mem_cons, not_or] at h
    have hne : ¬ k₁ = k := fun e => h.1 e.symm
    simp only [List.foldl_cons, if_neg hne, ih x h.2]

theorem AboveInterrupt.stackFunction_above {s : State} {flag : StackFrameFlags} {depth : Nat}
    {t : State} (h : AboveInterrupt s flag depth t) (addr : AddressInfo) (c : Nat)
    (h0 : 0 ≤ addr.Address) (hk : functionKey addr ≠ s.currentFunction) :
    AboveInterrupt s flag (depth + 1) (StackFunction t addr StackFrameFlags.None c) := by
  obtain ⟨post, postFlags, h₁, h₂, h₃, h₄, h₅, h₆, h₇⟩ := h
  obtain ⟨g₁, g₂, -, g₄, -, -⟩ := StackFunction_fields t addr StackFrameFlags.None c h0
  refine ⟨post ++ [t.currentFunction], postFlags ++ [StackFrameFlags.None], ?_, ?_, ?_, ?_,
    ?_, ?_, ?_⟩
  · rw [g₁, h₁]; simp
  · rw [g₂, h₂]; simp
  · simp [h₃]
  · simp [h₄]
  · intro f hf
    rcases List.mem_append.mp hf with hf | hf
    · exact h₅ f hf
    · simpa using hf
  · intro hmem
    rcases List.mem_append.mp hmem with hm | hm
    · exact h₆ hm
    · exact h₇ (List.mem_singleton.mp hm).symm
  · rw [g₄]; exact hk

theorem AboveInterrupt.unstackFunction_above {s : State} {flag : StackFrameFlags} {depth : Nat}
    {t : State} (h : AboveInterrupt s flag (depth + 1) t) (c : Nat) :
    AboveInterrupt s flag depth (UnstackFunction t c) := by
  obtain ⟨post, postFlags, h₁, h₂, h₃, h₄, h₅, h₆, h₇⟩ := h
  obtain ⟨post', x, rfl⟩ : ∃ l x, post = l ++ [x] := by
    rcases List.eq_nil_or_concat post with h | ⟨l, x, h⟩
    · subst h; simp at h₃
    · exact ⟨l, x, by simpa using h⟩
  obtain ⟨postFlags', f, rfl⟩ : ∃ l f, postFlags = l ++ [f] := by
    rcases List.eq_nil_or_concat postFlags with h | ⟨l, f, h⟩
    · subst h; simp at h₄
    · exact ⟨l, f, by simpa using h⟩
  obtain ⟨g₁, g₂, -, g₄, -, -⟩ := UnstackFunction_fields t c
    (s.functionStack ++ [s.currentFunction] ++ post') x (by rw [h₁]; simp)
  refine ⟨post', postFlags', g₁, ?_, by simpa using h₃, by simpa using h₄, ?_, ?_, ?_⟩
  · rw [g₂, h₂]
    rw [show s.stackFlags ++ [flag] ++ (postFlags' ++ [f])
      = (s.stackFlags ++ [flag] ++ postFlags') ++ [f] by simp, List.dropLast_concat]
  · exact fun g hg => h₅ g (by simp [hg])
  · exact fun hm => h₆ (by simp [hm])
  · rw [g₄]
    exact fun e => h₆ (by simp [e])

theorem AboveInterrupt.run_above {s : State} {flag : StackFrameFlags} (reg : Nat)
    (events : List Event) (depth : Nat) (t : State) (h : AboveInterrupt s flag depth t)
    (hruns : handlerRuns s.currentFunction depth events = true) :
    ∃ depth', AboveInterrupt s flag depth' (run reg t events) := by
  induction events generalizing depth t with
  | nil => exact ⟨depth, h⟩
  | cons e rest ih =>
    have hrun : Profiler.run reg t (e :: rest) = Profiler.run reg (step reg t e) rest := rfl
    rw [hrun]
    cases e with
    | StackFunction addr fl c =>
      by_cases h0 : 0 ≤ addr.Address
      · simp only [handlerRuns, h0, if_true, Bool.and_eq_true, decide_eq_true_eq] at hruns
        obtain ⟨⟨hfl, hk⟩, hrest⟩ := hruns
        subst hfl
        exact ih (depth + 1) _ (h.stackFunction_above addr c h0 hk) hrest
      · simp only [handlerRuns, h0, if_false] at hruns
        have : StackFunction t addr fl c = t := by simp [StackFunction, h0]
        simp only [step, this]
        exact ih depth t h hruns
    | UnstackFunction c =>
      simp only [handlerRuns, Bool.and_eq_true, decide_eq_true_eq] at hruns
      obtain ⟨hpos, hrest⟩ := hruns
      obtain ⟨d, rfl⟩ : ∃ d, depth = d + 1 := ⟨depth - 1, by omega⟩
      exact ih d _ (h.unstackFunction_above c) hrest
    | GetProfilerData c =>
      simp only [handlerRuns] at hruns
      refine ih depth _ ?_ hruns
      obtain ⟨post, postFlags, h₁, h₂, h₃, h₄, h₅, h₆, h₇⟩ := h
      exact ⟨post, postFlags, h₁, h₂, h₃, h₄, h₅, h₆, h₇⟩
    | Reset c => simp [handlerRuns] at hruns

theorem AboveInterrupt.enter_above (s : State) (handler : AddressInfo) (flag : StackFrameFlags)
    (c : Nat) (h0 : 0 ≤ handler.Address) (hne : functionKey handler ≠ s.currentFunction) :
    AboveInterrupt s flag 0 (StackFunction s handler flag c) := by
  obtain ⟨g₁, g₂, -, g₄, -, -⟩ := StackFunction_fields s handler flag c h0
  exact ⟨[], [], by simpa using g₁, by simpa using g₂, rfl, rfl, by simp, by simp,
    by rw [g₄]; exact hne⟩

/-- C8, as amended. Let `s` be a state with aligned stacks whose current function is the
routine `R`, and let `StackFunction(handler, flag)` with `flag != None` and a key other than
`R` enter an interrupt handler. In every state `t` reached afterwards while the handler or
one of its callees is current (callees entered by plain calls, with keys other than `R`), a
flush adds its clock gap once to the `InclusiveCycles` of `R` (modulo `2 ^ 64`): the
interrupted routine is not frozen. What the interrupt boundary protects is everything else
below it: the flush changes the record of no key other than `R`, the current function and
the functions of the frames above the interrupt frame. -/
theorem interrupted_routine_accrues (registerType : Nat) (s : State) (handler : AddressInfo)
    (flag : StackFrameFlags) (entry : Nat) (events : List Event) (clock : Nat)
    (haligned : s.stackFlags.length = s.functionStack.length)
    (hhandler : 0 ≤ handler.Address) (hflag : flag ≠ StackFrameFlags.None)
    (hne : functionKey handler ≠ s.currentFunction)
    (hruns : handlerRuns s.currentFunction 0 events = true)
    (hdepth : (run registerType (StackFunction s handler flag entry) events).functionStack.length
      < 2147483648) :
    ((UpdateCycles (run registerType (StackFunction s handler flag entry) events)
        clock).functions.get s.currentFunction).InclusiveCycles
      = wrap64
          (((run registerType (StackFunction s handler flag entry) events).functions.get
              s.currentFunction).InclusiveCycles
            + sub64 clock
                (run registerType (StackFunction s handler flag entry) events).prevMasterClock) ∧
    ∀ key : Int, key ≠ s.currentFunction →
      key ≠ (run registerType (StackFunction s handler flag entry) events).currentFunction →
      key ∉ (run registerType (StackFunction s handler flag entry) events).functionStack.drop
        (s.functionStack.length + 1) →
      (UpdateCycles (run registerType (StackFunction s handler flag entry) events)
        clock).functions.get key
        = (run registerType (StackFunction s handler flag entry) events).functions.get key := by
  obtain ⟨depth, post, postFlags, h₁, h₂, h₃, h₄, h₅, h₆, h₇⟩ :=
    AboveInterrupt.run_above registerType events 0 _
      (AboveInterrupt.enter_above s handler flag entry hhandler hne) hruns
  generalize run registerType (StackFunction s handler flag entry) events = t at *
  have htouched : UpdateCycles.touched t.functionStack t.stackFlags
      (UpdateCycles.iterations t.functionStack.length) = post.reverse ++ [s.currentFunction] := by
    rw [UpdateCycles.iterations_of_lt hdepth, h₁, h₂]
    exact UpdateCycles.touched_above_interrupt s.functionStack s.stackFlags s.currentFunction
      flag hflag haligned post postFlags (by omega) h₅
  refine ⟨?_, ?_⟩
  · rw [UpdateCycles_inclusive]
    simp only [flushedInclusive, htouched, if_neg h₇, List.foldl_append, List.foldl_cons,
      List.foldl_nil, if_true]
    rw [foldl_inclusive_of_not_mem _ _ _ _ (by simpa using h₆)]
  · intro key hkey hcur hpost
    apply UpdateCycles_get_untouched t clock key (fun e => hcur e.symm)
    rw [htouched]
    have hdrop : t.functionStack.drop (s.functionStack.length + 1) = post := by
      rw [h₁]
      rw [show s.functionStack.length + 1 = (s.functionStack ++ [s.currentFunction]).length by
        simp, List.drop_left]
    rw [hdrop] at hpost
    simp [hpost, hkey]

theorem interrupted_routine_accrues_witness :
    (handlerRuns sampleInterrupted.currentFunction 0
        [Event.StackFunction ⟨48, 0⟩ StackFrameFlags.None 3, Event.GetProfilerData 4] = true ∧
      sampleInterrupted.currentFunction = 16) ∧
    ((UpdateCycles (run 0 (StackFunction sampleInterrupted ⟨32, 0⟩ StackFrameFlags.Irq 2)
          [Event.StackFunction ⟨48, 0⟩ StackFrameFlags.None 3, Event.GetProfilerData 4])
        9).functions.get sampleInterrupted.currentFunction).InclusiveCycles
      = wrap64
          (((run 0 (StackFunction sampleInterrupted ⟨32, 0⟩ StackFrameFlags.Irq 2)
              [Event.StackFunction ⟨48, 0⟩ StackFrameFlags.None 3,
               Event.GetProfilerData 4]).functions.get
              sampleInterrupted.currentFunction).InclusiveCycles
            + sub64 9
                (run 0 (StackFunction sampleInterrupted ⟨32, 0⟩ StackFrameFlags.Irq 2)
                  [Event.StackFunction ⟨48, 0⟩ StackFrameFlags.None 3,
                   Event.GetProfilerData 4]).prevMasterClock) :=
  ⟨⟨by decide, by decide⟩,
    (interrupted_routine_accrues 0 sampleInterrupted ⟨32, 0⟩ StackFrameFlags.Irq 2
      [Event.StackFunction ⟨48, 0⟩ StackFrameFlags.None 3, Event.GetProfilerData 4] 9
      (by decide) (by decide) (by decide) (by decide) (by decide) (by decide)).1⟩

/-- C8 as stated fails. The routine at address 16 is current and is interrupted at clock 1
by the handler at address 32 (pushed with `Irq`); the flush at clock 6, made while the
handler is the current function, raises the `InclusiveCycles` of the interrupted routine
from 0 to 5. -/
theorem interrupted_routine_not_frozen :
    sampleInterrupted.currentFunction = 16 ∧
    (StackFunction sampleInterrupted ⟨32, 0⟩ StackFrameFlags.Irq 1).currentFunction = 32 ∧
    inclusiveCycles (StackFunction sampleInterrupted ⟨32, 0⟩ StackFrameFlags.Irq 1) 16
      = some 0 ∧
    inclusiveCycles
      (UpdateCycles (StackFunction sampleInterrupted ⟨32, 0⟩ StackFrameFlags.Irq 1) 6) 16
      = some 5 := by
  decide

/-! ## Minimum and maximum duration -/

theorem Tracks.updateCycles_tracks {start : Nat} {h : History} {s : State} (t : Tracks start h s)
    {c : Nat} (hc : s.prevMasterClock ≤ c) (hlt : c < UINT64_SIZE) :
    Tracks start h (UpdateCycles s c) where
  functionStack := t.functionStack
  cycleCountStack := t.cycleCountStack
  currentFunction := t.currentFunction
  timed := t.timed
  began_le := le_trans t.began_le hc
  prev_lt := hlt
  currentCycleCount := by
    show wrap64 (s.currentCycleCount + sub64 c s.prevMasterClock) = c - _
    have h₁ := t.began_le
    rw [sub64_of_le hc hlt, t.currentCycleCount, wrap64_of_lt (by
      simp only [UINT64_SIZE] at hlt ⊢; omega)]
    omega
  minCycles := fun key => by
    rw [(UpdateCycles_get_frame s c key).2.1]; exact t.minCycles key
  maxCycles := fun key => by
    rw [(UpdateCycles_get_frame s c key).2.2]; exact t.maxCycles key
  recorded := fun key hk => UpdateCycles_find_isSome s c key (t.recorded key hk)
  bounded := t.bounded

theorem Tracks.createRecord_tracks {start : Nat} {h : History} {s : State} (t : Tracks start h s)
    (addr : AddressInfo) : Tracks start h (StackFunction.createRecord s addr) := by
  obtain ⟨h₁, -, h₃, h₄, h₅, h₆⟩ := createRecord_stacks s addr
  exact {
    functionStack := by rw [h₁]; exact t.functionStack
    cycleCountStack := by rw [h₃]; exact t.cycleCountStack
    currentFunction := by rw [h₆]; exact t.currentFunction
    timed := t.timed
    began_le := by rw [h₅]; exact t.began_le
    prev_lt := by rw [h₅]; exact t.prev_lt
    currentCycleCount := by rw [h₄, h₅]; exact t.currentCycleCount
    minCycles := fun key => by
      rw [(createRecord_get_frame s addr key).2.1]; exact t.minCycles key
    maxCycles := fun key => by
      rw [(createRecord_get_frame s addr key).2.2]; exact t.maxCycles key
    recorded := fun key hk => createRecord_find_isSome s addr key (t.recorded key hk)
    bounded := t.bounded }

theorem Tracks.stackFunction_tracks {start : Nat} {h : History} {s : State} (t : Tracks start h s)
    (addr : AddressInfo) (fl : StackFrameFlags) {c : Nat} (hc : s.prevMasterClock ≤ c)
    (hlt : c < UINT64_SIZE) :
    Tracks start (h.step (Event.StackFunction addr fl c)) (StackFunction s addr fl c) ∧
      (StackFunction s addr fl c).prevMasterClock ≤ c := by
  by_cases h0 : 0 ≤ addr.Address
  · have hp : (StackFunction.createRecord s addr).prevMasterClock ≤ c := by
      rw [(createRecord_stacks s addr).2.2.2.2.1]; exact hc
    have u := (t.createRecord_tracks addr).updateCycles_tracks hp hlt
    simp only [History.step, h0, if_true, StackFunction]
    refine ⟨?_, le_refl _⟩
    exact {
      functionStack := by
        show _ ++ [_] = History.callers (_ :: h.frames)
        rw [History.callers, ← u.functionStack, ← u.currentFunction]
      cycleCountStack := by
        show _ ++ [_] = History.counts start (_ :: h.frames)
        rw [History.counts, ← u.cycleCountStack, u.currentCycleCount]; rfl
      currentFunction := rfl
      timed := ⟨u.began_le, t.timed⟩
      began_le := le_refl _
      prev_lt := hlt
      currentCycleCount := by
        show 0 = c - c
        omega
      minCycles := fun key => by
        rw [FunctionMap.get_update]
        split
        · next hk => subst hk; exact u.minCycles _
        · exact u.minCycles key
      maxCycles := fun key => by
        rw [FunctionMap.get_update]
        split
        · next hk => subst hk; exact u.maxCycles _
        · exact u.maxCycles key
      recorded := fun key hk => FunctionMap.find_update_isSome _ _ key _ (u.recorded key hk)
      bounded := t.bounded }
  · have : StackFunction s addr fl c = s := by simp [StackFunction, h0]
    simp only [History.step, h0, if_false, this]
    exact ⟨t, hc⟩

theorem durationsOf_concat (key : Int) (completed : List (Int × Nat)) (k : Int) (d : Nat) :
    durationsOf key (completed ++ [(k, d)])
      = durationsOf key completed ++ (if k = key then [d] else []) := by
  by_cases hk : k = key <;> simp [durationsOf, List.filter_append, List.filter_cons, hk]

theorem History.callers_ne_nil (p : Int × Nat) (rest : List (Int × Nat)) :
    History.callers (p :: rest) ≠ [] := by
  simp [History.callers]

theorem Tracks.unstackFunction_tracks {start : Nat} {h : History} {s : State} (t : Tracks start h s)
    {c : Nat} (hc : s.prevMasterClock ≤ c) (hlt : c < UINT64_SIZE) :
    Tracks start (h.step (Event.UnstackFunction c)) (UnstackFunction s c) ∧
      (UnstackFunction s c).prevMasterClock ≤ c := by
  obtain ⟨frames, completed⟩ := h
  cases frames with
  | nil =>
    have hfs : s.functionStack = [] := t.functionStack
    simp only [History.step, UnstackFunction, hfs, List.getLast?_nil]
    exact ⟨t, hc⟩
  | cons p rest =>
    obtain ⟨key, pushed⟩ := p
    have u := t.updateCycles_tracks hc hlt
    have hfs : s.functionStack = History.callers rest ++ [History.current rest] :=
      t.functionStack
    have hcs : s.cycleCountStack
        = History.counts start rest ++ [pushed - History.began start rest] :=
      t.cycleCountStack
    have hcur : s.currentFunction = key := t.currentFunction
    have hbegan : History.began start rest ≤ pushed := t.timed.1
    have hpushed : pushed ≤ s.prevMasterClock := t.began_le
    have hccc : (UpdateCycles s c).currentCycleCount = c - pushed := u.currentCycleCount
    obtain ⟨g₁, -, g₃, g₄, g₅, g₆⟩ := UnstackFunction_fields s c _ _ hfs
    have hfun : (UnstackFunction s c).functions
        = (UpdateCycles s c).functions.update key
            (fun func => { func with
              MinCycles := min func.MinCycles (c - pushed)
              MaxCycles := max func.MaxCycles (c - pushed) }) := by
      have hlast : s.functionStack.getLast? = some (History.current rest) := by
        rw [hfs]; simp
      simp only [UnstackFunction, hlast]
      rw [hccc]
      show FunctionMap.update _ s.currentFunction _ = _
      rw [hcur]
    refine ⟨?_, by rw [g₆]⟩
    simp only [History.step]
    exact {
      functionStack := g₁
      cycleCountStack := by rw [g₃, hcs, List.dropLast_concat]
      currentFunction := g₄
      timed := t.timed.2
      began_le := by rw [g₆]; exact le_trans hbegan (le_trans hpushed hc)
      prev_lt := by rw [g₆]; exact hlt
      currentCycleCount := by
        rw [g₅, g₆, hcs, List.getLastD_concat, sub64_of_le hc hlt, t.currentCycleCount]
        show wrap64 (pushed - History.began start rest
          + wrap64 (s.prevMasterClock - pushed + (c - s.prevMasterClock))) = _
        simp only [wrap64, UINT64_SIZE] at hlt ⊢
        omega
      minCycles := fun k => by
        rw [hfun, FunctionMap.get_update, durationsOf_concat]
        by_cases hk : key = k
        · subst hk
          simp only [if_true, List.foldl_append, List.foldl_cons, List.foldl_nil]
          show min _ _ = _
          rw [u.minCycles]
        · simp only [hk, if_false, List.append_nil]
          exact u.minCycles k
      maxCycles := fun k => by
        rw [hfun, FunctionMap.get_update, durationsOf_concat]
        by_cases hk : key = k
        · subst hk
          simp only [if_true, List.foldl_append, List.foldl_cons, List.foldl_nil]
          show max _ _ = _
          rw [u.maxCycles]
        · simp only [hk, if_false, List.append_nil]
          exact u.maxCycles k
      recorded := fun k hk => by
        rw [hfun]
        by_cases hkey : key = k
        · subst hkey
          simp [FunctionMap.find_update_self]
        · rw [FunctionMap.find_update_ne _ _ hkey]
          apply u.recorded
          rw [durationsOf_concat, if_neg hkey, List.append_nil] at hk
          exact hk
      bounded := fun q hq => by
        rcases List.mem_append.mp hq with hq | hq
        · exact t.bounded q hq
        · have : q = (key, c - pushed) := by simpa using hq
          subst this
          show c - pushed ≤ UINT64_MAX
          simp only [UINT64_SIZE, UINT64_MAX] at hlt ⊢
          omega }

theorem Tracks.step_tracks {start : Nat} {h : History} {s : State} (t : Tracks start h s)
    (reg : Nat) (e : Event) (he : e.isReset = false) (hc : s.prevMasterClock ≤ e.masterClock)
    (hlt : e.masterClock < UINT64_SIZE) :
    Tracks start (h.step e) (step reg s e) ∧ (step reg s e).prevMasterClock ≤ e.masterClock := by
  cases e with
  | StackFunction addr fl c => exact t.stackFunction_tracks addr fl hc hlt
  | UnstackFunction c => exact t.unstackFunction_tracks hc hlt
  | GetProfilerData c => exact ⟨t.updateCycles_tracks hc hlt, le_refl _⟩
  | Reset c => simp [Event.isReset] at he

theorem Tracks.run_tracks {start : Nat} (reg : Nat) (events : List Event) (h : History) (s : State)
    (clock : Nat) (t : Tracks start h s) (hp : s.prevMasterClock ≤ clock)
    (he : noReset events = true) (hclock : clockOrdered clock events = true) :
    Tracks start (events.foldl History.step h) (run reg s events) := by
  induction events generalizing h s clock with
  | nil => exact t
  | cons e rest ih =>
    simp only [noReset, List.all_cons, Bool.and_eq_true, Bool.not_eq_true'] at he
    simp only [clockOrdered, Bool.and_eq_true, decide_eq_true_eq] at hclock
    have hst := t.step_tracks reg e he.1 (le_trans hp hclock.1) (clockOrdered_lt rest _ hclock.2)
    exact ih (h.step e) (Profiler.step reg s e) e.masterClock hst.1 hst.2
      (by simpa [noReset] using he.2) hclock.2

theorem Tracks.reset_tracks (reg : Nat) (s : State) (c : Nat) (hc : c < UINT64_SIZE) :
    Tracks c { frames := [], completed := [] } (Reset reg s c) where
  functionStack := rfl
  cycleCountStack := rfl
  currentFunction := rfl
  timed := trivial
  began_le := le_refl _
  prev_lt := hc
  currentCycleCount := by
    show 0 = c - c
    omega
  minCycles := fun key => by
    by_cases hk : ResetFunctionIndex = key <;>
      simp [Reset, InternalReset, FunctionMap.get_update, hk, ProfiledFunction.init,
        FunctionMap.get, FunctionMap.find, durationsOf]
  maxCycles := fun key => by
    by_cases hk : ResetFunctionIndex = key <;>
      simp [Reset, InternalReset, FunctionMap.get_update, hk, ProfiledFunction.init,
        FunctionMap.get, FunctionMap.find, durationsOf]
  recorded := fun key hk => by simp [durationsOf] at hk
  bounded := fun p hp => by simp at hp

theorem foldl_min_of_bounded (d : Nat) (rest : List Nat) (hd : d ≤ UINT64_MAX) :
    (d :: rest).foldl min UINT64_MAX = rest.foldl min d := by
  simp only [List.foldl_cons, Nat.min_eq_right hd]

theorem foldl_max_zero (d : Nat) (rest : List Nat) :
    (d :: rest).foldl max 0 = rest.foldl max d := by
  simp only [List.foldl_cons, Nat.zero_max]

/-- C5. After `Reset` and any sequence of `StackFunction`, `UnstackFunction` and
`GetProfilerData` calls with non-decreasing 64-bit clock readings, let `d_1 .. d_n` be the
durations of the completed invocations of a key (an `UnstackFunction` made with a frame to
pop while the key is current; its duration is the master clock at that return minus the
master clock at the `StackFunction` that pushed the frame). If `n >= 1` the key has a record
with `MinCycles = min(d_1..d_n)` and `MaxCycles = max(d_1..d_n)`; if `n = 0` a record of the
key has `MinCycles = UINT64_MAX` and `MaxCycles = 0`. -/
theorem minmax_bounds (registerType : Nat) (s : State) (start : Nat) (events : List Event)
    (key : Int) (hcalls : noReset events = true) (hclock : clockOrdered start events = true) :
    (durations key events ≠ [] →
      ∃ func : ProfiledFunction,
        (run registerType (Reset registerType s start) events).functions.find key = some func ∧
        (durations key events).min? = some func.MinCycles ∧
        (durations key events).max? = some func.MaxCycles) ∧
    (durations key events = [] →
      ∀ func : ProfiledFunction,
        (run registerType (Reset registerType s start) events).functions.find key = some func →
        func.MinCycles = UINT64_MAX ∧ func.MaxCycles = 0) := by
  have t := Tracks.run_tracks registerType events _ (Reset registerType s start) start
    (Tracks.reset_tracks registerType s start (clockOrdered_lt events start hclock)) (le_refl _)
    hcalls hclock
  have hmin := t.minCycles key
  have hmax := t.maxCycles key
  refine ⟨?_, ?_⟩
  · intro hne
    obtain ⟨func, hfunc⟩ := Option.isSome_iff_exists.mp (t.recorded key hne)
    rw [FunctionMap.get_of_find hfunc] at hmin hmax
    refine ⟨func, hfunc, ?_, ?_⟩
    · show (durationsOf key (history events).completed).min? = _
      cases hds : durationsOf key (history events).completed with
      | nil => exact absurd hds hne
      | cons d rest =>
        have hd : d ≤ UINT64_MAX := by
          have hmem : d ∈ durationsOf key (history events).completed := by rw [hds]; simp
          simp only [durationsOf, List.mem_map, List.mem_filter] at hmem
          obtain ⟨p, ⟨hp, -⟩, rfl⟩ := hmem
          exact t.bounded p hp
        have e : history events = events.foldl History.step { frames := [], completed := [] } :=
          rfl
        rw [← e, hds, foldl_min_of_bounded d rest hd] at hmin
        rw [List.min?_cons', hmin]
    · show (durationsOf key (history events).completed).max? = _
      cases hds : durationsOf key (history events).completed with
      | nil => exact absurd hds hne
      | cons d rest =>
        have e : history events = events.foldl History.step { frames := [], completed := [] } :=
          rfl
        rw [← e, hds, foldl_max_zero d rest] at hmax
        rw [List.max?_cons', hmax]
  · intro hnil func hfunc
    have e : history events = events.foldl History.step { frames := [], completed := [] } :=
      rfl
    have hnil' : durationsOf key (history events).completed = [] := hnil
    rw [FunctionMap.get_of_find hfunc, ← e, hnil'] at hmin hmax
    exact ⟨hmin, hmax⟩

theorem minmax_bounds_witness :
    noReset sampleReturns = true ∧ clockOrdered 10 sampleReturns = true ∧
    durations 16 sampleReturns = [1, 9] ∧
    ((run 0 (Reset 0 (construct 0 0) 10) sampleReturns).functions.get 16).MinCycles = 1 ∧
    ((run 0 (Reset 0 (construct 0 0) 10) sampleReturns).functions.get 16).MaxCycles = 9 ∧
    ∃ func : ProfiledFunction,
      (run 0 (Reset 0 (construct 0 0) 10) sampleReturns).functions.find 16 = some func ∧
      (durations 16 sampleReturns).min? = some func.MinCycles ∧
      (durations 16 sampleReturns).max? = some func.MaxCycles :=
  ⟨by decide, by decide, by decide, by decide, by decide,
    (minmax_bounds 0 (construct 0 0) 10 sampleReturns 16 (by decide) (by decide)).1
      (by decide)⟩

/-! ## Function keys -/

theorem or_shiftLeft_of_lt (a t : Nat) (ha : a < 16777216) :
    a ||| (t <<< 24) = 16777216 * t + a := by
  have h := Nat.mul_add_lt_is_or (show a < 2 ^ 24 by omega) t
  rw [Nat.shiftLeft_eq, Nat.or_comm, Nat.mul_comm t (2 ^ 24), ← h]

theorem toInt32_injective_of_lt {n m : Nat} (hn : n < 4294967296) (hm : m < 4294967296)
    (h : toInt32 n = toInt32 m) : n = m := by
  unfold toInt32 at h
  rw [Nat.mod_eq_of_lt hn, Nat.mod_eq_of_lt hm] at h
  split at h <;> split at h <;> omega

/-- C11, as amended. For every address `0 <= a < 2 ^ 24` and every two memory-type tags
that differ as `uint8_t` values, the table keys computed for `(a, t1)` and `(a, t2)`
differ, so below `2 ^ 24` the same numeric address in different memory types is profiled
under distinct records. -/
theorem functionKey_separates (a : Int) (t1 t2 : Nat) (h0 : 0 ≤ a) (ha : a < 16777216)
    (ht : t1 % 256 ≠ t2 % 256) :
    functionKey { Address := a, MemoryType := t1 }
      ≠ functionKey { Address := a, MemoryType := t2 } := by
  intro h
  simp only [functionKey] at h
  have hlt : a.toNat < 16777216 := by omega
  rw [or_shiftLeft_of_lt _ _ hlt, or_shiftLeft_of_lt _ _ hlt] at h
  have := toInt32_injective_of_lt (by omega) (by omega) h
  omega

theorem functionKey_separates_witness :
    ((0 : Int) ≤ 32768 ∧ (32768 : Int) < 16777216 ∧ 7 % 256 ≠ 8 % 256) ∧
    functionKey { Address := 32768, MemoryType := 7 }
      ≠ functionKey { Address := 32768, MemoryType := 8 } :=
  ⟨by decide, functionKey_separates 32768 7 8 (by decide) (by decide) (by decide)⟩

/-- C11 as stated fails: the non-negative address `2 ^ 24` has bit 24 set, the bit the tag
1 is moved to, so the tags 0 and 1 give the same key for it, and `StackFunction` calls
for the two memory types count in one record. -/
theorem functionKey_collides :
    (0 : Int) ≤ 16777216 ∧ (0 : Nat) ≠ 1 ∧
    functionKey { Address := 16777216, MemoryType := 0 } = 16777216 ∧
    functionKey { Address := 16777216, MemoryType := 1 } = 16777216 ∧
    ((run 0 (construct 0 0)
        [Event.StackFunction { Address := 16777216, MemoryType := 0 } StackFrameFlags.None 1,
         Event.StackFunction { Address := 16777216, MemoryType := 1 } StackFrameFlags.None 2]
      ).functions.map (fun p => (p.1, p.2.CallCount))) = [(-1, 0), (16777216, 2)] := by
  decide

/-! ## The snapshot cap -/

theorem FunctionMap.keys_update (t : FunctionMap) (k : Int)
    (f : ProfiledFunction → ProfiledFunction) :
    (t.update k f).keys = if (t.find k).isSome then t.keys else t.keys ++ [k] := by
  induction t with
  | nil => simp [FunctionMap.update, FunctionMap.find, FunctionMap.keys]
  | cons p rest ih =>
    obtain ⟨k₁, r⟩ := p
    by_cases h : k₁ = k
    · simp [FunctionMap.update, FunctionMap.find, FunctionMap.keys, h]
    · simp only [FunctionMap.update, FunctionMap.find, FunctionMap.keys, h, if_false,
        List.map_cons] at ih ⊢
      rw [ih]
      split <;> simp

theorem FunctionMap.find_isSome_iff_mem_keys (t : FunctionMap) (k : Int) :
    (t.find k).isSome = true ↔ k ∈ t.keys := by
  induction t with
  | nil => simp [FunctionMap.find, FunctionMap.keys]
  | cons p rest ih =>
    obtain ⟨k₁, r⟩ := p
    by_cases h : k₁ = k
    · simp [FunctionMap.find, FunctionMap.keys, h]
    · simp only [FunctionMap.find, FunctionMap.keys, h, if_false, List.map_cons,
        List.mem_cons] at ih ⊢
      rw [ih]
      constructor
      · exact fun hm => Or.inr hm
      · rintro (hm | hm)
        · exact absurd hm.symm h
        · exact hm

theorem FunctionMap.keys_update_nodup (t : FunctionMap) (k : Int)
    (f : ProfiledFunction → ProfiledFunction) (h : t.keys.Nodup) : (t.update k f).keys.Nodup := by
  rw [FunctionMap.keys_update]
  split
  · exact h
  · next habs =>
    rw [FunctionMap.find_isSome_iff_mem_keys] at habs
    exact List.Nodup.append h (List.nodup_singleton k) (by simpa using habs)

theorem FunctionMap.find_of_mem (t : FunctionMap) (h : t.keys.Nodup) (p : Int × ProfiledFunction)
    (hp : p ∈ t) : t.find p.1 = some p.2 := by
  induction t with
  | nil => simp at hp
  | cons q rest ih =>
    obtain ⟨k₁, r⟩ := q
    simp only [FunctionMap.keys, List.map_cons, List.nodup_cons] at h
    rcases List.mem_cons.mp hp with heq | hmem
    · subst heq
      simp [FunctionMap.find]
    · have hne : k₁ ≠ p.1 := by
        intro e
        apply h.1
        rw [e]
        exact List.mem_map_of_mem (fun q => q.1) hmem
      simp only [FunctionMap.find, hne, if_false]
      exact ih h.2 hmem

theorem UpdateCycles_keys_nodup (s : State) (c : Nat) (h : s.functions.keys.Nodup) :
    (UpdateCycles s c).functions.keys.Nodup := by
  simp only [UpdateCycles, UpdateCycles.loop_eq_foldl]
  apply FunctionMap.foldl_update_preserves (fun t => t.keys.Nodup)
  · intro t k _ ht
    exact FunctionMap.keys_update_nodup t k _ ht
  · exact FunctionMap.keys_update_nodup _ _ _ h

theorem GetProfilerData.loop_eq (t : FunctionMap) (buffer : List ProfiledFunction) (n : Nat)
    (hn : n < 100000) :
    GetProfilerData.loop t buffer n
      = (buffer ++ (t.take (100000 - n)).map (fun p => p.2), n + min t.length (100000 - n)) := by
  induction t generalizing buffer n with
  | nil => simp [GetProfilerData.loop]
  | cons p rest ih =>
    simp only [GetProfilerData.loop]
    obtain ⟨m, hm⟩ : ∃ m, 100000 - n = m + 1 := ⟨100000 - n - 1, by omega⟩
    by_cases hcap : n + 1 ≥ 100000
    · have hm0 : m = 0 := by omega
      subst hm0
      simp only [hcap, if_true, hm, List.take_succ_cons, List.take_zero, List.map_cons,
        List.map_nil, List.length_cons, Prod.mk.injEq, true_and]
      omega
    · have hlt : n + 1 < 100000 := by omega
      have hm' : 100000 - (n + 1) = m := by omega
      simp only [hcap, if_false, ih _ _ hlt, hm, hm', List.take_succ_cons, List.map_cons,
        List.append_assoc, List.singleton_append, List.length_cons, Prod.mk.injEq, true_and]
      omega

theorem tableOf_keys_nodup (n : Nat) : (tableOf n).keys.Nodup := by
  have h : (tableOf n).keys = List.map (fun i : Nat => (i : Int) - 1) (List.range n) := by
    simp only [tableOf, FunctionMap.keys, List.map_map]
    rfl
  rw [h]
  exact (List.nodup_range n).map (fun a b hab => by
    have hab' : (a : Int) - 1 = (b : Int) - 1 := hab
    omega)

theorem tableOf_find_sentinel (n : Nat) (hn : 0 < n) :
    ((tableOf n).find ResetFunctionIndex).isSome = true := by
  rw [FunctionMap.find_isSome_iff_mem_keys]
  simp only [tableOf, FunctionMap.keys, List.map_map, List.mem_map, List.mem_range]
  exact ⟨0, hn, rfl⟩

theorem FunctionMap.length_update (t : FunctionMap) (k : Int)
    (f : ProfiledFunction → ProfiledFunction) (h : (t.find k).isSome = true) :
    (t.update k f).length = t.length := by
  have := congrArg List.length (FunctionMap.keys_update t k f)
  rw [if_pos h] at this
  simpa [FunctionMap.keys] using this

theorem UpdateCycles_of_empty_stack (s : State) (c : Nat) (h : s.functionStack = []) :
    (UpdateCycles s c).functions
      = s.functions.update s.currentFunction (addBoth (sub64 c s.prevMasterClock)) := by
  have h0 : UpdateCycles.iterations 0 = 0 := UpdateCycles.iterations_of_lt (by decide)
  simp only [UpdateCycles, h, List.length_nil, h0, UpdateCycles.loop]

theorem fullState_keys_nodup : fullState.functions.keys.Nodup := by
  have e : fullState.functions = tableOf 100001 := by simp only [fullState]
  rw [e]
  exact tableOf_keys_nodup 100001

theorem fullState_flush_length (c : Nat) :
    (GetProfilerData fullState c).1.functions.length = 100001 := by
  have e₁ : fullState.functions = tableOf 100001 := by simp only [fullState]
  have e₂ : fullState.currentFunction = ResetFunctionIndex := by simp only [fullState]
  show (UpdateCycles fullState c).functions.length = 100001
  rw [UpdateCycles_of_empty_stack fullState c (by simp only [fullState]), e₁, e₂,
    FunctionMap.length_update _ _ _ (tableOf_find_sentinel 100001 (by omega)),
    tableOf, List.length_map, List.length_range]

/-- C12. For every profiler state (the table holding one record per key), `GetProfilerData`
reports as `functionCount` the smaller of 100000 and the number of records the table holds
after the flush, and writes exactly that many records: the records of the first
`functionCount` entries of the table, whose keys are pairwise distinct. The count is
100000 both for a table of exactly 100000 records and for any larger one, and the call
returns nothing but the records and the count, so a caller cannot tell that records were
left out. -/
theorem getProfilerData_cap (s : State) (masterClock : Nat) (hmap : s.functions.keys.Nodup) :
    (GetProfilerData s masterClock).2.2
      = min (GetProfilerData s masterClock).1.functions.length 100000 ∧
    (GetProfilerData s masterClock).2.1.length = (GetProfilerData s masterClock).2.2 ∧
    (100000 ≤ (GetProfilerData s masterClock).1.functions.length →
      (GetProfilerData s masterClock).2.2 = 100000) ∧
    ∃ written : List (Int × ProfiledFunction),
      (GetProfilerData s masterClock).2.1 = written.map (fun p => p.2) ∧
      (written.map (fun p => p.1)).Nodup ∧
      ∀ p ∈ written, (GetProfilerData s masterClock).1.functions.find p.1 = some p.2 := by
  have hnodup := UpdateCycles_keys_nodup s masterClock hmap
  have hloop := GetProfilerData.loop_eq (UpdateCycles s masterClock).functions [] 0 (by decide)
  have e₁ : (GetProfilerData s masterClock).1 = UpdateCycles s masterClock := rfl
  have e₂ : (GetProfilerData s masterClock).2
      = (((UpdateCycles s masterClock).functions.take 100000).map (fun p => p.2),
          min (UpdateCycles s masterClock).functions.length 100000) := by
    show GetProfilerData.loop _ [] 0 = _
    rw [hloop]
    simp
  rw [e₁, e₂]
  refine ⟨rfl, ?_, fun h => Nat.min_eq_right h, ?_⟩
  · simp only [List.length_map, List.length_take]
    exact Nat.min_comm _ _
  · refine ⟨(UpdateCycles s masterClock).functions.take 100000, rfl, ?_, ?_⟩
    · have hsub : ((UpdateCycles s masterClock).functions.take 100000).map (fun p => p.1)
          = (UpdateCycles s masterClock).functions.keys.take 100000 := by
        simp [FunctionMap.keys, List.map_take]
      rw [hsub]
      exact List.Nodup.sublist (List.take_sublist _ _) hnodup
    · intro p hp
      exact FunctionMap.find_of_mem _ hnodup p (List.mem_of_mem_take hp)

theorem getProfilerData_cap_witness :
    fullState.functions.keys.Nodup ∧
    (GetProfilerData fullState 7).1.functions.length = 100001 ∧
    (GetProfilerData fullState 7).2.2 = 100000 ∧
    (GetProfilerData fullState 7).2.1.length = 100000 ∧
    ∃ written : List (Int × ProfiledFunction),
      (GetProfilerData fullState 7).2.1 = written.map (fun p => p.2) ∧
      (written.map (fun p => p.1)).Nodup ∧ written.length = 100000 :=
  have hcap : 100000 ≤ (GetProfilerData fullState 7).1.functions.length :=
    by rw [fullState_flush_length 7]; omega
  have h := getProfilerData_cap fullState 7 fullState_keys_nodup
  ⟨fullState_keys_nodup, fullState_flush_length 7, h.2.2.1 hcap,
    h.2.1.trans (h.2.2.1 hcap),
    h.2.2.2.elim fun written hw =>
      ⟨written, hw.1, hw.2.1, by
        rw [← List.length_map written (fun p => p.2), ← hw.1]
        exact h.2.1.trans (h.2.2.1 hcap)⟩⟩

/-! ## A call, and a call followed by its return -/

/-- C13. For every state `s`, frame flag, `AddressInfo` with `Address >= 0` (resolving to the
key `k`) and 64-bit master clock `c >= s.prevMasterClock`, the state `StackFunction` yields
has the function stack of `s` with `s.currentFunction` appended, the flag stack of `s`
with the flag appended, the cycle-count stack of `s` with the 64-bit sum
`s.currentCycleCount + (c - s.prevMasterClock)` appended (the sum itself when it is below
`2 ^ 64`), the current function `k`, the running cycle counter 0 and the last observed clock
`c`; and `k` has a record whose `CallCount` is the 64-bit successor of the one it had
(one more when that was below `UINT64_MAX`; 1 if `k` had no record). -/
theorem stackFunction_postcondition (s : State) (addr : AddressInfo)
    (stackFlag : StackFrameFlags) (masterClock : Nat) (h0 : 0 ≤ addr.Address)
    (hprev : s.prevMasterClock ≤ masterClock) (hclock : masterClock < UINT64_SIZE) :
    (StackFunction s addr stackFlag masterClock).functionStack
      = s.functionStack ++ [s.currentFunction] ∧
    (StackFunction s addr stackFlag masterClock).stackFlags = s.stackFlags ++ [stackFlag] ∧
    (StackFunction s addr stackFlag masterClock).cycleCountStack
      = s.cycleCountStack
          ++ [wrap64 (s.currentCycleCount + (masterClock - s.prevMasterClock))] ∧
    (s.currentCycleCount + (masterClock - s.prevMasterClock) < UINT64_SIZE →
      (StackFunction s addr stackFlag masterClock).cycleCountStack
        = s.cycleCountStack ++ [s.currentCycleCount + (masterClock - s.prevMasterClock)]) ∧
    (StackFunction s addr stackFlag masterClock).currentFunction = functionKey addr ∧
    (StackFunction s addr stackFlag masterClock).currentCycleCount = 0 ∧
    (StackFunction s addr stackFlag masterClock).prevMasterClock = masterClock ∧
    (∃ func : ProfiledFunction,
      (StackFunction s addr stackFlag masterClock).functions.find (functionKey addr)
        = some func ∧
      func.CallCount = wrap64 ((s.functions.get (functionKey addr)).CallCount + 1) ∧
      (∀ before : ProfiledFunction, s.functions.find (functionKey addr) = some before →
        before.CallCount < UINT64_MAX → func.CallCount = before.CallCount + 1) ∧
      (s.functions.find (functionKey addr) = none → func.CallCount = 1)) := by
  obtain ⟨h₁, h₂, h₃, h₄, h₅, h₆⟩ := StackFunction_fields s addr stackFlag masterClock h0
  rw [sub64_of_le hprev hclock] at h₃
  refine ⟨h₁, h₂, h₃, ?_, h₄, h₅, h₆, ?_⟩
  · intro hfit
    rw [h₃, wrap64_of_lt hfit]
  · obtain ⟨func, hfunc⟩ := Option.isSome_iff_exists.mp
      (StackFunction_find_key s addr stackFlag masterClock h0)
    have hcount := StackFunction_callCount s addr stackFlag masterClock (functionKey addr) h0
    rw [if_pos rfl, FunctionMap.get_of_find hfunc] at hcount
    refine ⟨func, hfunc, hcount, ?_, ?_⟩
    · intro before hbefore hlt
      rw [hcount, FunctionMap.get_of_find hbefore]
      apply wrap64_of_lt
      simp only [UINT64_MAX, UINT64_SIZE] at hlt ⊢
      omega
    · intro hnone
      rw [hcount]
      have : s.functions.get (functionKey addr) = ProfiledFunction.init := by
        simp [FunctionMap.get, hnone]
      rw [this]
      decide

theorem stackFunction_postcondition_witness :
    ((0 : Int) ≤ 32 ∧ sampleRunning.prevMasterClock ≤ 13 ∧ 13 < UINT64_SIZE) ∧
    (StackFunction sampleRunning ⟨32, 0⟩ StackFrameFlags.Nmi 13).functionStack
      = sampleRunning.functionStack ++ [sampleRunning.currentFunction] ∧
    (StackFunction sampleRunning ⟨32, 0⟩ StackFrameFlags.Nmi 13).cycleCountStack = [7] :=
  have h := stackFunction_postcondition sampleRunning ⟨32, 0⟩ StackFrameFlags.Nmi 13
    (by decide) (by decide) (by decide)
  ⟨⟨by decide, by decide, by decide⟩, h.1, h.2.2.2.1 (by decide)⟩

/-- C14. For every state `s`, `AddressInfo` with `Address >= 0`, frame flag and 64-bit clock
readings `s.prevMasterClock <= c1 <= c2`, `StackFunction` at `c1` followed by
`UnstackFunction` at `c2` restores the current function and the three stacks of `s`, leaves
`c2` as the last observed clock and sets the running cycle counter to the 64-bit sum
`s.currentCycleCount + (c2 - s.prevMasterClock)` (the sum itself when it is below
`2 ^ 64`): the counter of the caller continues and includes the time spent in the callee. -/
theorem call_return_round_trip (s : State) (addr : AddressInfo) (stackFlag : StackFrameFlags)
    (c1 c2 : Nat) (h0 : 0 ≤ addr.Address) (h1 : s.prevMasterClock ≤ c1) (h2 : c1 ≤ c2)
    (hclock : c2 < UINT64_SIZE) :
    (UnstackFunction (StackFunction s addr stackFlag c1) c2).currentFunction
      = s.currentFunction ∧
    (UnstackFunction (StackFunction s addr stackFlag c1) c2).functionStack
      = s.functionStack ∧
    (UnstackFunction (StackFunction s addr stackFlag c1) c2).stackFlags = s.stackFlags ∧
    (UnstackFunction (StackFunction s addr stackFlag c1) c2).cycleCountStack
      = s.cycleCountStack ∧
    (UnstackFunction (StackFunction s addr stackFlag c1) c2).prevMasterClock = c2 ∧
    (UnstackFunction (StackFunction s addr stackFlag c1) c2).currentCycleCount
      = wrap64 (s.currentCycleCount + (c2 - s.prevMasterClock)) ∧
    (s.currentCycleCount + (c2 - s.prevMasterClock) < UINT64_SIZE →
      (UnstackFunction (StackFunction s addr stackFlag c1) c2).currentCycleCount
        = s.currentCycleCount + (c2 - s.prevMasterClock)) := by
  obtain ⟨h₁, h₂, h₃, -, h₅, h₆⟩ := StackFunction_fields s addr stackFlag c1 h0
  obtain ⟨g₁, g₂, g₃, g₄, g₅, g₆⟩ :=
    UnstackFunction_fields (StackFunction s addr stackFlag c1) c2 s.functionStack
      s.currentFunction h₁
  have hc1 : c1 < UINT64_SIZE := lt_of_le_of_lt h2 hclock
  rw [h₂, List.dropLast_concat] at g₂
  rw [h₃, List.dropLast_concat] at g₃
  rw [h₃, List.getLastD_concat, h₅, h₆, sub64_of_le h1 hc1, sub64_of_le h2 hclock] at g₅
  have hcount : (UnstackFunction (StackFunction s addr stackFlag c1) c2).currentCycleCount
      = wrap64 (s.currentCycleCount + (c2 - s.prevMasterClock)) := by
    rw [g₅]
    simp only [wrap64, UINT64_SIZE] at hclock ⊢
    omega
  refine ⟨g₄, g₁, g₂, g₃, g₆, hcount, ?_⟩
  intro hfit
  rw [hcount, wrap64_of_lt hfit]

theorem call_return_round_trip_witness :
    ((0 : Int) ≤ 32 ∧ sampleRunning.prevMasterClock ≤ 13 ∧ (13 : Nat) ≤ 20 ∧
      20 < UINT64_SIZE) ∧
    (UnstackFunction (StackFunction sampleRunning ⟨32, 0⟩ StackFrameFlags.Nmi 13)
      20).currentFunction = sampleRunning.currentFunction ∧
    (UnstackFunction (StackFunction sampleRunning ⟨32, 0⟩ StackFrameFlags.Nmi 13)
      20).currentCycleCount = 14 :=
  have h := call_return_round_trip sampleRunning ⟨32, 0⟩ StackFrameFlags.Nmi 13 20
    (by decide) (by decide) (by decide) (by decide)
  ⟨⟨by decide, by decide, by decide, by decide⟩, h.1, h.2.2.2.2.2.2 (by decide)⟩

/-! ## The effect of a flush -/

theorem topBoundary_le (fl : List StackFrameFlags) (n : Nat) : topBoundary fl n ≤ n := by
  induction n with
  | zero => exact le_refl _
  | succ i ih =>
    simp only [topBoundary]
    split <;> omega

theorem UpdateCycles.touched_eq_drop (fs : List Int) (fl : List StackFrameFlags) (n : Nat)
    (hn : n ≤ fs.length) :
    UpdateCycles.touched fs fl n = ((fs.take n).drop (topBoundary fl n)).reverse := by
  induction n with
  | zero => simp [UpdateCycles.touched]
  | succ i ih =>
    have hi : i < fs.length := by omega
    have hget : fs.getD i 0 = fs[i] := by
      simp [List.getD_eq_getElem?_getD, List.getElem?_eq_getElem hi]
    have htake : fs.take (i + 1) = fs.take i ++ [fs[i]] := by
      rw [List.take_succ, List.getElem?_eq_getElem hi]; rfl
    have hlen : (fs.take i).length = i := by
      rw [List.length_take]; omega
    by_cases hflag : fl.getD i StackFrameFlags.None = StackFrameFlags.None
    · simp only [UpdateCycles.touched, topBoundary, ne_eq, hflag, not_true_eq_false, if_false,
        hget, htake]
      rw [List.drop_append_of_le_length (by rw [hlen]; exact topBoundary_le fl i),
        List.reverse_append, ih (by omega)]
      rfl
    · simp only [UpdateCycles.touched, topBoundary, ne_eq, hflag, not_false_eq_true, if_true,
        hget, htake]
      have : (fs.take i ++ [fs[i]]).drop i = [fs[i]] := by
        conv => lhs; arg 1; rw [← hlen]
        exact List.drop_left _ _
      rw [this]; rfl

theorem foldl_inclusive_count (keys : List Int) (k : Int) (gap x : Nat) :
    keys.foldl (fun x k' => if k' = k then wrap64 (x + gap) else x) x
      = if keys.count k = 0 then x else wrap64 (x + gap * keys.count k) := by
  induction keys generalizing x with
  | nil => simp
  | cons k₁ rest ih =>
    simp only [List.foldl_cons]
    rw [ih]
    by_cases h : k₁ = k
    · subst h
      simp only [if_true, List.count_cons_self]
      rw [if_neg (Nat.succ_ne_zero _)]
      split
      · next h0 => rw [h0]; simp
      · rw [Nat.mul_succ]
        simp only [wrap64, UINT64_SIZE]
        omega
    · have hc : (k₁ :: rest).count k = rest.count k := by
        simp [List.count_cons, h]
      simp only [if_neg h, hc]

theorem UpdateCycles_exclusive (s : State) (c : Nat) (k : Int) :
    ((UpdateCycles s c).functions.get k).ExclusiveCycles
      = if s.currentFunction = k
        then wrap64 ((s.functions.get k).ExclusiveCycles + sub64 c s.prevMasterClock)
        else (s.functions.get k).ExclusiveCycles := by
  simp only [UpdateCycles, UpdateCycles.loop_eq_foldl]
  have h := FunctionMap.foldl_update_preserves
    (fun t => (t.get k).ExclusiveCycles
      = ((s.functions.update s.currentFunction
          (addBoth (sub64 c s.prevMasterClock))).get k).ExclusiveCycles)
    (addInclusive (sub64 c s.prevMasterClock))
    (UpdateCycles.touched s.functionStack s.stackFlags (UpdateCycles.iterations s.functionStack.length))
    (fun t k' _ ht => by
      show ((t.update k' _).get k).ExclusiveCycles = _
      rw [FunctionMap.get_update]
      split
      · next hk => subst hk; exact ht
      · exact ht) _ rfl
  rw [h, FunctionMap.get_update]
  split
  · next hk => subst hk; rfl
  · rfl

/-- C15, as amended. For every state with aligned stacks of fewer than `2 ^ 31` frames and
every master clock `c`, with `gap = c - prevMasterClock` modulo `2 ^ 64` and `j` the index
of the topmost shadow-stack entry whose flag is not `None` (0 if there is none),
`UpdateCycles` adds `gap` to the `ExclusiveCycles` of the current function and of no other
key, adds to the `InclusiveCycles` of every key `gap` times (1 if the key is the current
function, plus the number of function-stack entries at indices `>= j` equal to the key),
leaves the `InclusiveCycles` of every other key unchanged, adds `gap` to the running cycle
counter and sets `prevMasterClock` to `c`; every addition is a 64-bit one. -/
theorem updateCycles_effect (s : State) (masterClock : Nat) (key : Int)
    (haligned : s.stackFlags.length = s.functionStack.length)
    (hdepth : s.functionStack.length < 2147483648) :
    ((UpdateCycles s masterClock).functions.get s.currentFunction).ExclusiveCycles
      = wrap64 ((s.functions.get s.currentFunction).ExclusiveCycles
          + sub64 masterClock s.prevMasterClock) ∧
    (key ≠ s.currentFunction →
      ((UpdateCycles s masterClock).functions.get key).ExclusiveCycles
        = (s.functions.get key).ExclusiveCycles) ∧
    (0 < flushCount s key →
      ((UpdateCycles s masterClock).functions.get key).InclusiveCycles
        = wrap64 ((s.functions.get key).InclusiveCycles
            + sub64 masterClock s.prevMasterClock * flushCount s key)) ∧
    (flushCount s key = 0 →
      ((UpdateCycles s masterClock).functions.get key).InclusiveCycles
        = (s.functions.get key).InclusiveCycles) ∧
    (UpdateCycles s masterClock).currentCycleCount
      = wrap64 (s.currentCycleCount + sub64 masterClock s.prevMasterClock) ∧
    (UpdateCycles s masterClock).prevMasterClock = masterClock := by
  have htouched : UpdateCycles.touched s.functionStack s.stackFlags
      (UpdateCycles.iterations s.functionStack.length)
      = (s.functionStack.drop (topBoundary s.stackFlags s.stackFlags.length)).reverse := by
    rw [UpdateCycles.iterations_of_lt hdepth, UpdateCycles.touched_eq_drop _ _ _ (le_refl _),
      List.take_length, haligned]
  have hinc := UpdateCycles_inclusive s masterClock key
  simp only [flushedInclusive, htouched, foldl_inclusive_count, List.count_reverse] at hinc
  refine ⟨?_, ?_, ?_, ?_, rfl, rfl⟩
  · rw [UpdateCycles_exclusive, if_pos rfl]
  · intro hne
    rw [UpdateCycles_exclusive, if_neg (fun e => hne e.symm)]
  · intro hpos
    rw [hinc]
    unfold flushCount at hpos ⊢
    by_cases hcur : s.currentFunction = key
    · simp only [hcur, if_true] at hpos ⊢
      split
      · next h0 => rw [h0]; simp
      · simp only [wrap64, UINT64_SIZE, Nat.mul_add, Nat.mul_one]
        omega
    · simp only [hcur, if_false, Nat.zero_add] at hpos ⊢
      rw [if_neg (by omega)]
  · intro hzero
    rw [hinc]
    unfold flushCount at hzero
    by_cases hcur : s.currentFunction = key
    · simp only [hcur, if_true] at hzero
      omega
    · simp only [hcur, if_false, Nat.zero_add] at hzero
      rw [if_neg hcur, if_pos hzero]

theorem updateCycles_effect_witness :
    ((StackFunction sampleInterrupted ⟨32, 0⟩ StackFrameFlags.Irq 2).stackFlags.length
        = (StackFunction sampleInterrupted ⟨32, 0⟩ StackFrameFlags.Irq 2).functionStack.length ∧
      flushCount (StackFunction sampleInterrupted ⟨32, 0⟩ StackFrameFlags.Irq 2) 16 = 1 ∧
      flushCount (StackFunction sampleInterrupted ⟨32, 0⟩ StackFrameFlags.Irq 2) (-1) = 0) ∧
    ((UpdateCycles (StackFunction sampleInterrupted ⟨32, 0⟩ StackFrameFlags.Irq 2)
        9).functions.get 16).InclusiveCycles
      = wrap64
          (((StackFunction sampleInterrupted ⟨32, 0⟩ StackFrameFlags.Irq 2).functions.get
              16).InclusiveCycles
            + sub64 9 (StackFunction sampleInterrupted ⟨32, 0⟩
                StackFrameFlags.Irq 2).prevMasterClock
              * flushCount (StackFunction sampleInterrupted ⟨32, 0⟩ StackFrameFlags.Irq 2)
                  16) :=
  ⟨⟨by decide, by decide, by decide⟩,
    (updateCycles_effect (StackFunction sampleInterrupted ⟨32, 0⟩ StackFrameFlags.Irq 2) 9 16
      (by decide) (by decide)).2.2.1 (by decide)⟩

theorem topBoundary_replicate_none (n : Nat) :
    topBoundary (List.replicate n StackFrameFlags.None) n = 0 := by
  have h : ∀ m, m ≤ n → topBoundary (List.replicate n StackFrameFlags.None) m = 0 := by
    intro m
    induction m with
    | zero => intro _; rfl
    | succ i ih =>
      intro hm
      have : (List.replicate n StackFrameFlags.None).getD i StackFrameFlags.None
          = StackFrameFlags.None := by
        simp [List.getD_eq_getElem?_getD, List.getElem?_replicate, show i < n by omega]
      simp only [topBoundary, this, ne_eq, not_true_eq_false, if_false]
      exact ih (by omega)
  exact h n (le_refl _)

theorem UpdateCycles_of_no_loop (s : State) (c : Nat)
    (h : (UpdateCycles.iterations s.functionStack.length) = 0) :
    (UpdateCycles s c).functions
      = s.functions.update s.currentFunction (addBoth (sub64 c s.prevMasterClock)) := by
  simp only [UpdateCycles, h, UpdateCycles.loop]

theorem flushCount_of_unflagged (s : State) (key : Int) (n : Nat)
    (hflags : s.stackFlags = List.replicate n StackFrameFlags.None)
    (hstack : s.functionStack = List.replicate n key) (hcur : s.currentFunction ≠ key) :
    flushCount s key = n := by
  unfold flushCount
  rw [hflags, hstack, List.length_replicate, topBoundary_replicate_none, List.drop_zero,
    List.count_replicate_self, if_neg hcur, Nat.zero_add]

/-- C15 as stated fails. In a state with aligned stacks whose shadow stack holds
`2 ^ 31 + 1` frames of the function with key 7, none flagged, `j` is 0 and the claim has a
flush add the gap `2 ^ 31 + 1` times to the `InclusiveCycles` of key 7. The size of the
stack converted to `int32_t` is `-(2 ^ 31 - 1)`, the loop of `UpdateCycles` starts at the
index `-2 ^ 31` (no overflow) and does not run: the flush at clock 5 writes the record of
the current function and nothing else, and the record of key 7 is as it was, with
`InclusiveCycles` 0 instead of `5 * (2 ^ 31 + 1)`. -/
theorem updateCycles_skips_deep_stack :
    deepState.stackFlags.length = deepState.functionStack.length ∧
    deepState.functionStack.length = 2147483649 ∧
    sub64 5 deepState.prevMasterClock = 5 ∧
    flushCount deepState 7 = 2147483649 ∧
    toInt32 deepState.functionStack.length = -2147483647 ∧
    UpdateCycles.start deepState.functionStack.length = some (-2147483648) ∧
    (deepState.functions.get 7).InclusiveCycles = 0 ∧
    (UpdateCycles deepState 5).functions.find 7 = deepState.functions.find 7 ∧
    ((UpdateCycles deepState 5).functions.get 3).InclusiveCycles = 5 ∧
    ((UpdateCycles deepState 5).functions.get 7).InclusiveCycles = 0 := by
  have hlen : deepState.functionStack.length = 2147483649 := List.length_replicate _ _
  have hflags : deepState.stackFlags.length = 2147483649 := List.length_replicate _ _
  have hconv : toInt32 2147483649 = -2147483647 := by decide
  have hstart : UpdateCycles.start 2147483649 = some (-2147483648) := by decide
  have hnone : UpdateCycles.iterations 2147483649 = 0 := by
    simp only [UpdateCycles.iterations, hstart]
    decide
  have hfun : deepState.functions = [(3, ProfiledFunction.init), (7, ProfiledFunction.init)] :=
    rfl
  have hcur : deepState.currentFunction = 3 := rfl
  have hprev : deepState.prevMasterClock = 0 := rfl
  have hloop := UpdateCycles_of_no_loop deepState 5 (by rw [hlen]; exact hnone)
  rw [hfun, hcur, hprev] at hloop
  refine ⟨by rw [hlen, hflags], hlen, by rw [hprev]; decide,
    flushCount_of_unflagged deepState 7 2147483649 rfl rfl (by rw [hcur]; decide),
    by rw [hlen, hconv], by rw [hlen, hstart], by rw [hfun]; rfl, ?_, ?_, ?_⟩
  · rw [hloop, hfun]; rfl
  · rw [hloop]; decide
  · rw [hloop]; rfl

/-! ## Inactive records -/

theorem UpdateCycles.touched_subset (fs : List Int) (fl : List StackFrameFlags) (n : Nat)
    (hn : n ≤ fs.length) : ∀ k ∈ UpdateCycles.touched fs fl n, k ∈ fs := by
  induction n with
  | zero => intro k hk; simp [UpdateCycles.touched] at hk
  | succ i ih =>
    intro k hk
    have hi : i < fs.length := by omega
    simp only [UpdateCycles.touched, List.mem_cons] at hk
    rcases hk with hk | hk
    · rw [hk, List.getD_eq_getElem?_getD, List.getElem?_eq_getElem hi]
      exact List.getElem_mem hi
    · split at hk
      · simp at hk
      · exact ih (by omega) k hk

theorem UpdateCycles_touched_mem (s : State) (k : Int)
    (hk : k ∈ UpdateCycles.touched s.functionStack s.stackFlags
      (UpdateCycles.iterations s.functionStack.length)) : k ∈ s.functionStack :=
  UpdateCycles.touched_subset _ _ _ (UpdateCycles.iterations_le _) k hk

theorem FunctionMap.foldl_update_find_of_not_mem (keys : List Int)
    (f : ProfiledFunction → ProfiledFunction) (t : FunctionMap) (k : Int) (h : k ∉ keys) :
    (keys.foldl (fun t k => t.update k f) t).find k = t.find k := by
  induction keys generalizing t with
  | nil => rfl
  | cons k₁ rest ih =>
    simp only [List.mem_cons, not_or] at h
    simp only [List.foldl_cons]
    rw [ih _ h.2, FunctionMap.find_update_ne _ _ (fun e => h.1 e.symm)]

/-- A flush leaves the table entry of a key alone that is neither current nor on the
function stack. -/
theorem UpdateCycles_find_inactive (s : State) (c : Nat) (k : Int)
    (hcur : s.currentFunction ≠ k) (hstack : k ∉ s.functionStack) :
    (UpdateCycles s c).functions.find k = s.functions.find k := by
  simp only [UpdateCycles, UpdateCycles.loop_eq_foldl]
  rw [FunctionMap.foldl_update_find_of_not_mem _ _ _ _
    (fun hk => hstack (UpdateCycles_touched_mem s k hk)),
    FunctionMap.find_update_ne _ _ hcur]

theorem createRecord_find_ne (s : State) (addr : AddressInfo) (k : Int)
    (hk : functionKey addr ≠ k) :
    (StackFunction.createRecord s addr).functions.find k = s.functions.find k := by
  simp only [StackFunction.createRecord]
  split
  · rw [FunctionMap.find_update_ne _ _ hk, FunctionMap.find_update_ne _ _ hk]
  · rfl

/-- C16. Identities are the keys of the table. For every state and every key that has a
record `func` but is neither the current function nor on the function stack,
`UpdateCycles`, `UnstackFunction`, `GetProfilerData` and a `StackFunction` that is ignored
(negative address) or resolves to another key leave the key in the table with the same
record `func` (the five counters and the address). No call other than `Reset` removes the
record of any key, and `Reset` leaves the record of the sentinel only. -/
theorem inactive_record_untouched (registerType : Nat) (s : State) (key : Int)
    (func : ProfiledFunction) (hrecord : s.functions.find key = some func)
    (hcurrent : s.currentFunction ≠ key) (hstack : key ∉ s.functionStack) :
    (∀ clock : Nat, (UpdateCycles s clock).functions.find key = some func) ∧
    (∀ clock : Nat, (UnstackFunction s clock).functions.find key = some func) ∧
    (∀ clock : Nat, (GetProfilerData s clock).1.functions.find key = some func) ∧
    (∀ (addr : AddressInfo) (flag : StackFrameFlags) (clock : Nat),
      (0 ≤ addr.Address → functionKey addr ≠ key) →
      (StackFunction s addr flag clock).functions.find key = some func) ∧
    (∀ (t : State) (e : Event) (k : Int), e.isReset = false →
      (t.functions.find k).isSome = true →
      ((step registerType t e).functions.find k).isSome = true) ∧
    (∀ (t : State) (clock : Nat), (Reset registerType t clock).functions.keys = [-1]) := by
  have hflush : ∀ clock : Nat, (UpdateCycles s clock).functions.find key = some func :=
    fun clock => by rw [UpdateCycles_find_inactive s clock key hcurrent hstack, hrecord]
  refine ⟨hflush, ?_, hflush, ?_, ?_, fun _ _ => rfl⟩
  · intro clock
    unfold UnstackFunction
    split
    · exact hrecord
    · show FunctionMap.find (FunctionMap.update _ s.currentFunction _) key = _
      rw [FunctionMap.find_update_ne _ _ hcurrent]
      exact hflush clock
  · intro addr flag clock hkey
    unfold StackFunction
    split
    · rename_i h0
      replace hkey := hkey h0
      show FunctionMap.find (FunctionMap.update _ (functionKey addr) _) key = _
      obtain ⟨h₁, -, -, -, -, h₆⟩ := createRecord_stacks s addr
      rw [FunctionMap.find_update_ne _ _ hkey,
        UpdateCycles_find_inactive _ clock key (by rw [h₆]; exact hcurrent)
          (by rw [h₁]; exact hstack),
        createRecord_find_ne s addr key hkey, hrecord]
    · exact hrecord
  · intro t e k he hk
    exact step_find_isSome registerType t e k he hk

theorem inactive_record_untouched_witness :
    ((run 0 (construct 0 0) sampleReturns).functions.find 32).isSome = true ∧
    (run 0 (construct 0 0) sampleReturns).currentFunction = -1 ∧
    (run 0 (construct 0 0) sampleReturns).functionStack = [] ∧
    (UpdateCycles (run 0 (construct 0 0) sampleReturns) 30).functions.find 32
      = (run 0 (construct 0 0) sampleReturns).functions.find 32 :=
  ⟨by decide, by decide, by decide,
    ((inactive_record_untouched 0 (run 0 (construct 0 0) sampleReturns) 32
      ((run 0 (construct 0 0) sampleReturns).functions.get 32) (by decide) (by decide)
      (by decide)).1 30).trans (by decide)⟩

/-! ## The three stacks -/

theorem FunctionMap.foldl_update_keys (keys : List Int)
    (f : ProfiledFunction → ProfiledFunction) (t : FunctionMap)
    (h : ∀ k ∈ keys, (t.find k).isSome = true) :
    (keys.foldl (fun t k => t.update k f) t).keys = t.keys := by
  induction keys generalizing t with
  | nil => rfl
  | cons k₁ rest ih =>
    simp only [List.foldl_cons]
    rw [ih _ (fun k hk => FunctionMap.find_update_isSome t k₁ k f
      (h k (List.mem_cons_of_mem _ hk))),
      FunctionMap.keys_update, if_pos (h k₁ (List.mem_cons_self _ _))]

theorem Covered.updateCycles_keys {s : State} (h : Covered s) (c : Nat) :
    (UpdateCycles s c).functions.keys = s.functions.keys := by
  simp only [UpdateCycles, UpdateCycles.loop_eq_foldl]
  rw [FunctionMap.foldl_update_keys _ _ _ (fun k hk =>
      FunctionMap.find_update_isSome _ _ k _ (h.2 k (UpdateCycles_touched_mem s k hk))),
    FunctionMap.keys_update, if_pos h.1]

theorem Covered.unstackFunction_keys {s : State} (h : Covered s) (c : Nat) :
    (UnstackFunction s c).functions.keys = s.functions.keys := by
  unfold UnstackFunction
  split
  · rfl
  · show FunctionMap.keys (FunctionMap.update _ s.currentFunction _) = _
    rw [FunctionMap.keys_update, if_pos (UpdateCycles_find_isSome s c _ h.1),
      h.updateCycles_keys c]

theorem createRecord_keys (s : State) (addr : AddressInfo) :
    (StackFunction.createRecord s addr).functions.keys
      = if (s.functions.find (functionKey addr)).isSome then s.functions.keys
        else s.functions.keys ++ [functionKey addr] := by
  simp only [StackFunction.createRecord]
  by_cases hk : (s.functions.find (functionKey addr)).isSome = true
  · have : (s.functions.find (functionKey addr)).isNone = false := by
      rw [Option.isNone_eq_false_iff]; exact hk  
    simp [this, hk]
  · have hn : (s.functions.find (functionKey addr)).isNone = true := by
      cases hf : s.functions.find (functionKey addr) with
      | none => rfl
      | some r => rw [hf] at hk; simp at hk
    simp only [hn, if_true, hk]
    rw [FunctionMap.keys_update, FunctionMap.keys_update]
    simp [FunctionMap.find_update_self, hk]

theorem Covered.createRecord_covered {s : State} (h : Covered s) (addr : AddressInfo) :
    Covered (StackFunction.createRecord s addr) := by
  obtain ⟨h₁, -, -, -, -, h₆⟩ := createRecord_stacks s addr
  refine ⟨?_, ?_⟩
  · rw [h₆]; exact createRecord_find_isSome s addr _ h.1
  · rw [h₁]; intro k hk; exact createRecord_find_isSome s addr _ (h.2 k hk)

theorem Covered.stackFunction_keys {s : State} (h : Covered s) (addr : AddressInfo)
    (fl : StackFrameFlags) (c : Nat) :
    (StackFunction s addr fl c).functions.keys
      = if 0 ≤ addr.Address ∧ (s.functions.find (functionKey addr)).isSome = false
        then s.functions.keys ++ [functionKey addr] else s.functions.keys := by
  unfold StackFunction
  split
  · rename_i h0
    show FunctionMap.keys (FunctionMap.update _ (functionKey addr) _) = _
    have hpresent : ((StackFunction.createRecord s addr).functions.find
        (functionKey addr)).isSome = true := by
      simp only [StackFunction.createRecord]
      split
      · simp [FunctionMap.find_update_self]
      · rename_i hn
        cases hf : s.functions.find (functionKey addr) with
        | none => rw [hf] at hn; simp at hn
        | some r => rfl
    rw [FunctionMap.keys_update,
      if_pos (UpdateCycles_find_isSome _ c _ hpresent),
      (h.createRecord_covered addr).updateCycles_keys c, createRecord_keys]
    cases hf : (s.functions.find (functionKey addr)).isSome <;> simp [h0]
  · rename_i h0
    simp [h0]

theorem Covered.step_covered {s : State} (h : Covered s) (reg : Nat) (e : Event) :
    Covered (step reg s e) := by
  cases e with
  | StackFunction addr fl c =>
    by_cases h0 : 0 ≤ addr.Address
    · obtain ⟨g₁, -, -, g₄, -, -⟩ := StackFunction_fields s addr fl c h0
      refine ⟨?_, ?_⟩
      · show ((StackFunction s addr fl c).functions.find
          (StackFunction s addr fl c).currentFunction).isSome = true
        rw [g₄]; exact StackFunction_find_key s addr fl c h0
      · show ∀ k ∈ (StackFunction s addr fl c).functionStack, _
        rw [g₁]
        intro k hk
        rcases List.mem_append.mp hk with hk | hk
        · exact StackFunction_find_isSome s addr fl c k (h.2 k hk)
        · rw [List.mem_singleton.mp hk]
          exact StackFunction_find_isSome s addr fl c _ h.1
    · have : StackFunction s addr fl c = s := by simp [StackFunction, h0]
      simp only [step, this]
      exact h
  | UnstackFunction c =>
    rcases List.eq_nil_or_concat s.functionStack with hnil | ⟨pre, caller, hcat⟩
    · have : UnstackFunction s c = s := by simp [UnstackFunction, hnil]
      simp only [step, this]
      exact h
    · rw [List.concat_eq_append] at hcat
      obtain ⟨g₁, -, -, g₄, -, -⟩ := UnstackFunction_fields s c pre caller hcat
      refine ⟨?_, ?_⟩
      · show ((UnstackFunction s c).functions.find (UnstackFunction s c).currentFunction).isSome
          = true
        rw [g₄]
        exact UnstackFunction_find_isSome s c _ (h.2 caller (by rw [hcat]; simp))
      · show ∀ k ∈ (UnstackFunction s c).functionStack, _
        rw [g₁]
        intro k hk
        exact UnstackFunction_find_isSome s c _ (h.2 k (by rw [hcat]; simp [hk]))
  | GetProfilerData c =>
    exact ⟨UpdateCycles_find_isSome s c _ h.1, fun k hk => UpdateCycles_find_isSome s c _ (h.2 k hk)⟩
  | Reset c => exact ⟨rfl, fun k hk => by simp [step, Reset, InternalReset] at hk⟩

theorem Covered.run_covered (reg : Nat) (events : List Event) (s : State) (h : Covered s) :
    Covered (run reg s events) := by
  induction events generalizing s with
  | nil => exact h
  | cons e rest ih => exact ih (step reg s e) (h.step_covered reg e)

/-- C19. In every state reached from the constructor or from `Reset` by any sequence of
`StackFunction`, `UnstackFunction`, `GetProfilerData` and `Reset` calls, the current
function and every identity on `_functionStack` have a record in `_functions`. In such a
state `UpdateCycles`, `UnstackFunction` and `GetProfilerData` leave the list of keys as it
is, `StackFunction` leaves it as it is or appends the stacked key (when the address is not
negative and the key had no record), and `Reset` leaves the sentinel key only. The
constructor leaves the state of a `Reset`. -/
theorem table_covers_live (registerType : Nat) (s : State) (start : Nat) (events : List Event) :
    construct registerType start = Reset registerType s start ∧
    ((run registerType (Reset registerType s start) events).functions.find
      (run registerType (Reset registerType s start) events).currentFunction).isSome = true ∧
    (∀ key ∈ (run registerType (Reset registerType s start) events).functionStack,
      ((run registerType (Reset registerType s start) events).functions.find key).isSome
        = true) ∧
    (∀ clock : Nat,
      (UpdateCycles (run registerType (Reset registerType s start) events) clock).functions.keys
        = (run registerType (Reset registerType s start) events).functions.keys) ∧
    (∀ clock : Nat,
      (UnstackFunction (run registerType (Reset registerType s start) events)
          clock).functions.keys
        = (run registerType (Reset registerType s start) events).functions.keys) ∧
    (∀ clock : Nat,
      (GetProfilerData (run registerType (Reset registerType s start) events)
          clock).1.functions.keys
        = (run registerType (Reset registerType s start) events).functions.keys) ∧
    (∀ (addr : AddressInfo) (flag : StackFrameFlags) (clock : Nat),
      (StackFunction (run registerType (Reset registerType s start) events) addr flag
          clock).functions.keys
        = if 0 ≤ addr.Address ∧
            ((run registerType (Reset registerType s start) events).functions.find
              (functionKey addr)).isSome = false
          then (run registerType (Reset registerType s start) events).functions.keys
            ++ [functionKey addr]
          else (run registerType (Reset registerType s start) events).functions.keys) ∧
    (∀ clock : Nat,
      (Reset registerType (run registerType (Reset registerType s start) events)
        clock).functions.keys = [ResetFunctionIndex]) := by
  have h : Covered (run registerType (Reset registerType s start) events) :=
    Covered.run_covered registerType events _ ⟨rfl, fun k hk => by
      simp [Reset, InternalReset] at hk⟩
  exact ⟨rfl, h.1, h.2, h.updateCycles_keys, h.unstackFunction_keys, h.updateCycles_keys,
    h.stackFunction_keys, fun _ => rfl⟩

/-! ## Recursion -/

/-- C18. Recursion inflates the inclusive count. `Reset` at clock 0, then two calls of `f`
(`StackFunction(f, None)`, any non-negative address whose key is not the sentinel) made at
clock 0, then a flush (`UpdateCycles`, which is also what `GetProfilerData` runs) at a clock
`g > 0` with `2 * g` below `2^64`: the gap of the flush is `g`, the record of `f` is
written twice (once as current function, once for its occurrence on the function stack),
and its `InclusiveCycles` ends at `2 * g`, above the `g` cycles elapsed since the `Reset`. -/
theorem recursion_inflates_inclusive (registerType : Nat) (s : State) (f : AddressInfo) (g : Nat)
    (h0 : 0 ≤ f.Address) (hkey : functionKey f ≠ ResetFunctionIndex) (hg : 0 < g)
    (hfit : 2 * g < UINT64_SIZE) :
    sub64 g (run registerType (Reset registerType s 0)
      [Event.StackFunction f StackFrameFlags.None 0,
       Event.StackFunction f StackFrameFlags.None 0]).prevMasterClock = g ∧
    flushCount (run registerType (Reset registerType s 0)
      [Event.StackFunction f StackFrameFlags.None 0,
       Event.StackFunction f StackFrameFlags.None 0]) (functionKey f) = 2 ∧
    inclusiveCycles (UpdateCycles (run registerType (Reset registerType s 0)
      [Event.StackFunction f StackFrameFlags.None 0,
       Event.StackFunction f StackFrameFlags.None 0]) g) (functionKey f) = some (2 * g) ∧
    inclusiveCycles (run registerType (Reset registerType s 0)
      [Event.StackFunction f StackFrameFlags.None 0,
       Event.StackFunction f StackFrameFlags.None 0,
       Event.GetProfilerData g]) (functionKey f) = some (2 * g) ∧
    g < 2 * g := by
  have hflush : ∀ t : State, (run registerType t [Event.StackFunction f StackFrameFlags.None 0,
       Event.StackFunction f StackFrameFlags.None 0, Event.GetProfilerData g])
      = UpdateCycles (run registerType t [Event.StackFunction f StackFrameFlags.None 0,
       Event.StackFunction f StackFrameFlags.None 0]) g := fun _ => rfl
  have hrun : run registerType (Reset registerType s 0)
      [Event.StackFunction f StackFrameFlags.None 0,
       Event.StackFunction f StackFrameFlags.None 0]
      = StackFunction (StackFunction (Reset registerType s 0) f StackFrameFlags.None 0) f
          StackFrameFlags.None 0 := rfl
  rw [hflush, hrun]
  obtain ⟨a₁, a₂, -, a₄, -, a₆⟩ :=
    StackFunction_fields (Reset registerType s 0) f StackFrameFlags.None 0 h0
  obtain ⟨b₁, b₂, -, b₄, -, b₆⟩ :=
    StackFunction_fields (StackFunction (Reset registerType s 0) f StackFrameFlags.None 0) f
      StackFrameFlags.None 0 h0
  rw [a₁, a₄] at b₁
  rw [a₂] at b₂
  have r₁ : (Reset registerType s 0).functionStack = [] := rfl
  have r₂ : (Reset registerType s 0).stackFlags = [] := rfl
  have r₃ : (Reset registerType s 0).currentFunction = ResetFunctionIndex := rfl
  rw [r₁, r₃] at b₁
  rw [r₂] at b₂
  simp only [List.nil_append, List.singleton_append] at b₁ b₂
  have hgap : sub64 g 0 = g := by
    rw [sub64_of_le (Nat.zero_le g) (by omega)]; rfl
  have hsize : g < UINT64_SIZE := by omega
  have hinc₁ : ((StackFunction (Reset registerType s 0) f StackFrameFlags.None 0).functions.get
      (functionKey f)).InclusiveCycles = 0 := by
    rw [StackFunction_inclusive _ _ _ _ _ h0, Reset_get_inclusive]
    simp only [flushedInclusive, r₁, r₂, r₃, List.length_nil]
    rw [if_neg (fun e => hkey e.symm)]
    rfl
  have hinc₂ : ((StackFunction (StackFunction (Reset registerType s 0) f StackFrameFlags.None 0)
      f StackFrameFlags.None 0).functions.get (functionKey f)).InclusiveCycles = 0 := by
    rw [StackFunction_inclusive _ _ _ _ _ h0, hinc₁]
    simp only [flushedInclusive, a₁, a₂, a₄, a₆, r₁, r₂, r₃, List.nil_append,
      List.length_singleton]
    have : UpdateCycles.iterations 1 = 1 := UpdateCycles.iterations_of_lt (by decide)
    rw [this]
    simp [UpdateCycles.touched, fun e => hkey (Eq.symm e), sub64, wrap64]
  have hmain : inclusiveCycles (UpdateCycles (StackFunction (StackFunction
      (Reset registerType s 0) f StackFrameFlags.None 0) f StackFrameFlags.None 0) g)
      (functionKey f) = some (2 * g) := ?_
  refine ⟨by rw [b₆]; exact hgap, ?_, hmain, hmain, by omega⟩
  · simp only [flushCount, b₁, b₂, b₄, if_true, List.length_cons, List.length_nil]
    simp [topBoundary, List.count_cons, Ne.symm hkey]
  · rw [inclusiveCycles_of_isSome (UpdateCycles_find_isSome _ g _
      (StackFunction_find_key _ f StackFrameFlags.None 0 h0)), UpdateCycles_inclusive, hinc₂]
    simp only [flushedInclusive, b₁, b₂, b₄, b₆, hgap, if_true, List.length_cons,
      List.length_nil]
    have h2 : UpdateCycles.iterations (0 + 1 + 1) = 2 :=
      UpdateCycles.iterations_of_lt (by decide)
    rw [h2]
    simp only [UpdateCycles.touched, List.getD_eq_getElem?_getD, ne_eq, not_true_eq_false,
      if_false, List.foldl_cons, List.foldl_nil, if_true, if_neg hkey.symm,
      List.getElem?_cons_succ, List.getElem?_cons_zero, Option.getD_some, wrap64, UINT64_SIZE,
      Option.some.injEq] at hfit ⊢
    clear * - hfit
    omega

theorem recursion_inflates_inclusive_witness :
    inclusiveCycles (run 0 (Reset 0 (construct 0 0) 0)
      [Event.StackFunction ⟨16, 0⟩ StackFrameFlags.None 0,
       Event.StackFunction ⟨16, 0⟩ StackFrameFlags.None 0,
       Event.GetProfilerData 5]) (functionKey ⟨16, 0⟩) = some (2 * 5) ∧ 5 < 2 * 5 :=
  ⟨(recursion_inflates_inclusive 0 (construct 0 0) ⟨16, 0⟩ 5 (by decide) (by decide)
    (by decide) (by decide)).2.2.2.1, by decide⟩

end Profiler
